import Mathlib

/-!
Verification development for the DMP occupation-segment pipeline.

The Python sources are shallowly embedded:

* Python strings are `List Char` (`PyStr`); `str.strip`, slicing and
  `startswith` are embedded as list functions operating on code points,
  which is what Python's `len`/slicing also count.
* The fixed regular expressions of `clean_address_for_search` are
  embedded as left-to-right scanners with greedy sub-matching; each
  scanner takes a fuel argument (the input length suffices) so that all
  definitions are structural and kernel-evaluable.
* HTTP requests and the search backend are oracles passed as arguments:
  an HTTP outcome value stands for what the `requests` call produced
  (an exception, or a status code plus parsed JSON payload), and the
  Elasticsearch backend is a function from a query point to the
  sub-response it returns.
* `pandas` dataframes are lists of row structures; column presence that
  is per-dataframe (the `time_type` column) is a flag on the dataframe.
* The filesystem directory used by the snapshot managers is a list of
  file names; a successful `unlink` removes the name.
* Numbers parsed from provider payloads (`float(...)`) are modelled as
  rationals.
-/

/-- Python string model: the string as its list of characters. -/
abbrev PyStr := List Char

/-- Whitespace test for the characters matched by Python's regex class
backslash-s and by `str.strip()` on this data. -/
def isWs (c : Char) : Bool :=
  c = ' ' || c = '\t' || c = '\n' || c = '\r' || c = '\x0b' || c = '\x0c'

/-- Decimal-digit test for the regex class backslash-d as it applies to
the addresses handled here. -/
def isDig (c : Char) : Bool := '0' ≤ c && c ≤ '9'

/-- Python `str.rstrip()` for whitespace. -/
def pyRstrip : PyStr → PyStr
  | [] => []
  | c :: rest =>
    match pyRstrip rest with
    | [] => if isWs c then [] else [c]
    | r => c :: r

/-- Python `str.strip()` for whitespace. -/
def pyStrip (l : PyStr) : PyStr := pyRstrip (l.dropWhile isWs)

/-- Python `str.startswith`. -/
def startsWithPy (p l : PyStr) : Bool := List.isPrefixOf p l

/-- Embeds `core.utils.remove_address_duplicates`.  Inputs are `none`
for a `NaN` cell (`pd.notna` guard); otherwise the stripped string is
used.  Mirrors the source line by line: the province name is stripped
from the front of the district name, then the province name, the
combined province-plus-district prefix, or the district name alone is
stripped from the front of the sub-district name. -/
def removeAddressDuplicates (ctp0 sig0 emd0 : Option PyStr) : PyStr × PyStr × PyStr :=
  let ctp := match ctp0 with | none => [] | some s => pyStrip s
  let sig := match sig0 with | none => [] | some s => pyStrip s
  let emd := match emd0 with | none => [] | some s => pyStrip s
  let sig2 := if ctp ≠ [] ∧ sig ≠ [] ∧ startsWithPy ctp sig
              then pyStrip (sig.drop ctp.length) else sig
  let emd2 :=
    if emd = [] then emd
    else
      let emdA := if ctp ≠ [] ∧ startsWithPy ctp emd
                  then pyStrip (emd.drop ctp.length) else emd
      let fullSig := if ctp ≠ [] then pyStrip (ctp ++ ' ' :: sig2) else sig2
      if fullSig ≠ [] ∧ startsWithPy fullSig emdA then pyStrip (emdA.drop fullSig.length)
      else if sig2 ≠ [] ∧ startsWithPy sig2 emdA then pyStrip (emdA.drop sig2.length)
      else emdA
  (ctp, sig2, emd2)

/-- An address-search document of the Kakao coordinate lookup; `x` is
the longitude and `y` the latitude, modelled as the numbers that
`float(result['x'])` / `float(result['y'])` produce. -/
structure CoordDoc where
  x : Rat
  y : Rat
deriving DecidableEq

/-- Outcome of the HTTP request in `get_coordinates_from_address`, as
seen inside the `try` block: an exception anywhere before the status is
known (connection error, JSON error), or a response with an HTTP status
and a parsed documents list (`raise_for_status` is the status test). -/
inductive CoordOutcome where
  | exn : CoordOutcome
  | resp : Nat → List CoordDoc → CoordOutcome
deriving DecidableEq

/-- Embeds `KakaoAPIClient.get_coordinates_from_address`: blank address
short-circuits; `raise_for_status` turns any status of 400 or more into
the caught-exception path; an empty documents list falls through to
`(None, None)`; otherwise the first document's coordinates are
returned. -/
def getCoordinatesFromAddress (address : PyStr) (outcome : CoordOutcome) :
    Option Rat × Option Rat :=
  if address = [] ∨ pyStrip address = [] then (none, none)
  else
    match outcome with
    | .exn => (none, none)
    | .resp status docs =>
      if 400 ≤ status then (none, none)
      else
        match docs with
        | [] => (none, none)
        | d :: _ => (some d.x, some d.y)

/-- A region document of the Kakao coord-to-region response; every field
comes from `doc.get(...)`, hence is optional. -/
structure RegionDoc where
  region_type : Option PyStr
  code : Option PyStr
  region1 : Option PyStr
  region2 : Option PyStr
  region3 : Option PyStr
deriving DecidableEq

/-- The dictionary returned by `get_legal_dong_from_coord`. -/
structure LegalDong where
  ctp_cd : Option PyStr
  ctp_nm : PyStr
  sig_cd : Option PyStr
  sig_nm : PyStr
  emd_cd : Option PyStr
  emd_nm : PyStr
deriving DecidableEq

/-- Outcome of the HTTP request in `get_legal_dong_from_coord`. -/
inductive RegionOutcome where
  | exn : RegionOutcome
  | resp : Nat → List RegionDoc → RegionOutcome
deriving DecidableEq

/-- Builds the result dictionary of `get_legal_dong_from_coord` from the
selected legal-division document; this block is textually identical in
`api_clients/kakao_api.py` and `processors/enrich_with_kakao_api.py`. -/
def legalDongRecord (d : RegionDoc) : LegalDong :=
  let code := d.code.getD []
  let r1 := d.region1.getD []
  let r2 := d.region2.getD []
  let r3 := d.region3.getD []
  { ctp_cd := if 2 ≤ code.length then some (code.take 2 ++ "00000000".data) else none
    ctp_nm := r1
    sig_cd := if 5 ≤ code.length then some (code.take 5 ++ "00000".data) else none
    sig_nm := pyStrip (r1 ++ ' ' :: r2)
    emd_cd := if code.length = 10 then some code else none
    emd_nm := pyStrip (r1 ++ ' ' :: r2 ++ ' ' :: r3) }

/-- Embeds `KakaoAPIClient.get_legal_dong_from_coord`: `None` on any
non-200 status, missing/empty documents, or no legal-division document
(`region_type == 'B'`); exceptions are caught and also give `None`. -/
def getLegalDongFromCoord (outcome : RegionOutcome) : Option LegalDong :=
  match outcome with
  | .exn => none
  | .resp status docs =>
    if status ≠ 200 then none
    else if docs = [] then none
    else
      match docs.find? (fun d => d.region_type == some "B".data) with
      | none => none
      | some d => some (legalDongRecord d)

/-- Embeds `processors/enrich_with_kakao_api.get_legal_dong_from_coord`,
a literal duplicate of the client's response handling. -/
def enrichGetLegalDongFromCoord (outcome : RegionOutcome) : Option LegalDong :=
  match outcome with
  | .exn => none
  | .resp status docs =>
    if status ≠ 200 then none
    else if docs = [] then none
    else
      match docs.find? (fun d => d.region_type == some "B".data) with
      | none => none
      | some d => some (legalDongRecord d)

/-- Remaining input after the first close paren, if any: the continuation
point of a match of the bracketed-segment pattern whose open paren was
just seen. -/
def afterClose : PyStr → Option PyStr
  | [] => none
  | c :: rest => if c = ')' then some rest else afterClose rest

/-- One `re.sub` pass removing bracketed segments (open paren, any
non-close characters, close paren), scanning left to right; fuel at
least the input length makes the scan total. -/
def subParenF : Nat → PyStr → PyStr
  | 0, l => l
  | _ + 1, [] => []
  | fuel + 1, c :: rest =>
    if c = '(' then
      match afterClose rest with
      | some r => subParenF fuel r
      | none => c :: subParenF fuel rest
    else c :: subParenF fuel rest

/-- One `re.sub` pass removing basement marks: the two marker characters,
optional whitespace, digits, then an optional floor character (greedy,
with trailing whitespace absorbed by the optional part). -/
def subJihaF : Nat → PyStr → PyStr
  | 0, l => l
  | _ + 1, [] => []
  | fuel + 1, c :: rest =>
    if c = '지' then
      match rest with
      | c2 :: r0 =>
        if c2 = '하' then
          let r1 := r0.dropWhile isWs
          match r1 with
          | d :: _ =>
            if isDig d then
              let r2 := r1.dropWhile isDig
              let r3 := r2.dropWhile isWs
              match r3 with
              | '층' :: r4 => subJihaF fuel r4
              | _ => subJihaF fuel r3
            else c :: subJihaF fuel rest
          | [] => c :: subJihaF fuel rest
        else c :: subJihaF fuel rest
      | [] => c :: subJihaF fuel rest
    else c :: subJihaF fuel rest

/-- One `re.sub` pass removing floor marks: digits, optional whitespace,
the floor character, then optional whitespace, digits and a unit-number
character (all greedy; the character classes are disjoint, so maximal
munch coincides with the regex engine's backtracking search). -/
def subFloorF : Nat → PyStr → PyStr
  | 0, l => l
  | _ + 1, [] => []
  | fuel + 1, c :: rest =>
    if isDig c then
      let r1 := rest.dropWhile isDig
      let r2 := r1.dropWhile isWs
      match r2 with
      | '층' :: r3 =>
        let r4 := r3.dropWhile isWs
        let r5 := r4.dropWhile isDig
        let r6 := r5.dropWhile isWs
        match r6 with
        | '호' :: r7 => subFloorF fuel r7
        | _ => subFloorF fuel r6
      | _ => c :: subFloorF fuel rest
    else c :: subFloorF fuel rest

/-- One `re.sub` pass removing unit numbers: digits, optional whitespace,
the unit-number character. -/
def subHoF : Nat → PyStr → PyStr
  | 0, l => l
  | _ + 1, [] => []
  | fuel + 1, c :: rest =>
    if isDig c then
      let r1 := rest.dropWhile isDig
      let r2 := r1.dropWhile isWs
      match r2 with
      | '호' :: r3 => subHoF fuel r3
      | _ => c :: subHoF fuel rest
    else c :: subHoF fuel rest

/-- The `re.sub` pass replacing each whitespace run with one space. -/
def collapseWs : PyStr → PyStr
  | [] => []
  | [c] => if isWs c then [' '] else [c]
  | c1 :: c2 :: rest =>
    if isWs c1 && isWs c2 then collapseWs (c2 :: rest)
    else (if isWs c1 then ' ' else c1) :: collapseWs (c2 :: rest)

/-- First substitution of `clean_address_for_search` (brackets). -/
def cleanStage1 (c0 : PyStr) : PyStr := subParenF c0.length c0

/-- Second substitution of `clean_address_for_search` (basement). -/
def cleanStage2 (c1 : PyStr) : PyStr := subJihaF c1.length c1

/-- Third substitution of `clean_address_for_search` (floor). -/
def cleanStage3 (c2 : PyStr) : PyStr := subFloorF c2.length c2

/-- Fourth substitution of `clean_address_for_search` (unit number). -/
def cleanStage4 (c3 : PyStr) : PyStr := subHoF c3.length c3

/-- Embeds `core.utils.clean_address_for_search`: empty or
whitespace-only addresses are returned unchanged; otherwise the address
is stripped and the five substitution passes run in source order
(brackets, basement marks, floor marks, unit numbers, whitespace
collapse), followed by a final strip. -/
def cleanAddressForSearch (address : PyStr) : PyStr :=
  if address = [] ∨ pyStrip address = [] then address
  else
    pyStrip (collapseWs (cleanStage4 (cleanStage3 (cleanStage2 (cleanStage1
      (pyStrip address))))))

/-- Matching configuration constants from `config/settings.py`. -/
def MAX_RETRIES : Nat := 3

/-- Chunk size for streaming the input CSV (`MatchingConfig.CHUNK_SIZE`). -/
def CHUNK_SIZE : Nat := 50000

/-- Flush threshold (`MatchingConfig.INTERMEDIATE_SAVE_INTERVAL`). -/
def INTERMEDIATE_SAVE_INTERVAL : Nat := 100000

/-- Search batch size (`BATCH_CONFIG['search_batch_size']`). -/
def search_batch_size : Nat := 1000

/-- Page size requested by `fetch_all_pages` (`per_page`). -/
def per_page : Nat := 1000

/-- Splits a list into consecutive chunks of size `n` (fuel-driven so the
definition is structural; fuel at least the length suffices). -/
def chunksOfF {α : Type} : Nat → Nat → List α → List (List α)
  | _, _, [] => []
  | 0, _, l => [l]
  | fuel + 1, n, x :: xs => (x :: xs.take (n - 1)) :: chunksOfF fuel n (xs.drop (n - 1))

/-- One input CSV row of the matcher: device id, coordinates (possibly
`NaN`), and the value of the optional `time_type` column. -/
structure UserRow where
  adid : PyStr
  lat : Option Rat
  lon : Option Rat
  time_type : Option PyStr
deriving DecidableEq

/-- A matcher input dataframe; `hasTimeTypeCol` records whether the
`time_type` column exists at all (a per-dataframe fact in pandas). -/
structure UserDF where
  hasTimeTypeCol : Bool
  rows : List UserRow
deriving DecidableEq

/-- Per-chunk preprocessing of `match_locations`: the daytime filter for
the company place type (only when the column exists), then dropna on
lat/lon. -/
def filterChunk (placeType : PyStr) (hasTT : Bool) (rows : List UserRow) : List UserRow :=
  let r1 := if placeType = "company".data ∧ hasTT = true
            then rows.filter (fun r => r.time_type == some "DAY".data)
            else rows
  r1.filter (fun r => r.lat.isSome && r.lon.isSome)

/-- A user location tuple `(lat, lon, adid)` as built in
`match_locations`. -/
abbrev Loc := Rat × Rat × PyStr

/-- Extracts the location tuple from a row that passed the dropna filter
(the defaults are never used on filtered rows). -/
def toLoc (r : UserRow) : Loc := (r.lat.getD 0, r.lon.getD 0, r.adid)

/-- The `_source` fields read from a hit by `process_batch`; each comes
from `source.get(...)`, hence is optional. -/
structure SourceFields where
  fac_cd : Option PyStr
  ctp_cd : Option PyStr
  sig_cd : Option PyStr
  emd_cd : Option PyStr
  corp_cd : Option PyStr
  corp_depth1_cd : Option PyStr
  corp_depth2_cd : Option PyStr
  corp_depth3_cd : Option PyStr
  corp_depth4_cd : Option PyStr
  corp_depth5_cd : Option PyStr
deriving DecidableEq

/-- One hit of a sub-response: its sort values (geo distance in meters
first) and its source document. -/
structure Hit where
  sortVals : List Rat
  src : SourceFields
deriving DecidableEq

/-- One per-row sub-response of an msearch reply: an error tag, the
reported total hit count, and the hit list. -/
structure SubResp where
  hasError : Bool
  totalValue : Nat
  hits : List Hit
deriving DecidableEq

/-- The parsed JSON body of an msearch reply; `responses = none` models
a body without a usable `responses` key. -/
structure MsearchJson where
  responses : Option (List SubResp)
deriving DecidableEq

/-- One attempt of the msearch HTTP request: `fail` covers a raised
exception and a non-200 status (both retried), `ok` is a 200 reply with
its parsed body. -/
inductive MsearchAttempt where
  | fail : MsearchAttempt
  | ok : MsearchJson → MsearchAttempt
deriving DecidableEq

/-- Retry loop of `sync_msearch` over the per-attempt outcomes. -/
def syncMsearchLoop (att : Nat → MsearchAttempt) : Nat → Nat → Option MsearchJson
  | 0, _ => none
  | n + 1, i =>
    match att i with
    | .ok body => some body
    | .fail => syncMsearchLoop att n (i + 1)

/-- Embeds `SyncMatcher.sync_msearch`: up to `MAX_RETRIES` attempts, the
first 200 reply is returned, otherwise `None`. -/
def syncMsearch (att : Nat → MsearchAttempt) : Option MsearchJson :=
  syncMsearchLoop att MAX_RETRIES 0

/-- The per-place-type projection of the source document used when a
result row is assembled (`high_school`/`university` versus company). -/
inductive PlaceFields where
  | school : Option PyStr → Option PyStr → Option PyStr → Option PyStr → PlaceFields
  | company : Option PyStr → Option PyStr → Option PyStr → Option PyStr → Option PyStr →
      Option PyStr → Option PyStr → Option PyStr → Option PyStr → PlaceFields
deriving DecidableEq

/-- One output row of the matcher. -/
structure MatchResult where
  adid : PyStr
  lat : Rat
  lon : Rat
  distance : Rat
  fields : PlaceFields
deriving DecidableEq

/-- Chooses which source fields go into a result row, following the
`place_type in ['high_school', 'university']` branch. -/
def resultFields (placeType : PyStr) (s : SourceFields) : PlaceFields :=
  if placeType = "high_school".data ∨ placeType = "university".data then
    .school s.fac_cd s.ctp_cd s.sig_cd s.emd_cd
  else
    .company s.corp_cd s.corp_depth1_cd s.corp_depth2_cd s.corp_depth3_cd
      s.corp_depth4_cd s.corp_depth5_cd s.ctp_cd s.sig_cd s.emd_cd

/-- The response loop of `process_batch` over the sub-responses, indexing
back into the batch; uncaught Python exceptions (an index out of range)
are `Except.error`. -/
def processRows (placeType : PyStr) (batch : List Loc) :
    List SubResp → Nat → Except Unit (List MatchResult)
  | [], _ => Except.ok []
  | r :: rest, idx =>
    if r.hasError || r.totalValue == 0 then processRows placeType batch rest (idx + 1)
    else
      match batch[idx]? with
      | none => Except.error ()
      | some l =>
        match r.hits with
        | [] => Except.error ()
        | hit :: _ =>
          match hit.sortVals with
          | [] => Except.error ()
          | d :: _ =>
            match processRows placeType batch rest (idx + 1) with
            | Except.error e => Except.error e
            | Except.ok tail =>
              Except.ok ({ adid := l.2.2, lat := l.1, lon := l.2.1, distance := d,
                           fields := resultFields placeType hit.src } :: tail)

/-- Embeds `SyncMatcher.process_batch` given the msearch reply: a missing
reply or missing `responses` key yields no results; otherwise the
sub-responses are folded into result rows. -/
def processBatch (placeType : PyStr) (batch : List Loc) (resp : Option MsearchJson) :
    Except Unit (List MatchResult) :=
  match resp with
  | none => Except.ok []
  | some j =>
    match j.responses with
    | none => Except.ok []
    | some rs => processRows placeType batch rs 0

/-- The claim's per-row reading of batch processing: an error-tagged or
zero-hit sub-response yields no row; a sub-response with hits yields one
row whose distance is the first sort value of the nearest hit. -/
def specBatchRows (placeType : PyStr) (batch : List Loc) (rs : List SubResp) :
    List MatchResult :=
  (batch.zip rs).filterMap (fun p =>
    if p.2.hasError || p.2.totalValue == 0 then none
    else
      match p.2.hits with
      | [] => none
      | hit :: _ =>
        match hit.sortVals with
        | [] => none
        | d :: _ => some { adid := p.1.2.2, lat := p.1.1, lon := p.1.2.1, distance := d,
                           fields := resultFields placeType hit.src })

/-- The deterministic search backend of the matching model: the
sub-response it returns for one geo query point (the place type and its
radius are fixed per matching job and folded into the oracle). -/
abbrev EsOracle := Rat → Rat → SubResp

/-- The msearch reply body that the backend produces for one batch, one
sub-response per batch row (network transport assumed successful; the
claim under verification is about chunking, not about retries). -/
def batchResponses (es : EsOracle) (batch : List Loc) : MsearchJson :=
  { responses := some (batch.map (fun l => es l.1 l.2.1)) }

/-- Sequential model of the worker-pool fan-out in
`batch_find_nearest_places_parallel` over an already-built batch list:
with a deterministic backend, completion order is modelled as submission
order. -/
def collectBatches (placeType : PyStr) (es : EsOracle) :
    List (List Loc) → Except Unit (List MatchResult)
  | [] => Except.ok []
  | b :: bs =>
    match processBatch placeType b (some (batchResponses es b)) with
    | Except.error e => Except.error e
    | Except.ok rs =>
      match collectBatches placeType es bs with
      | Except.error e => Except.error e
      | Except.ok rest => Except.ok (rs ++ rest)

/-- Embeds `SyncMatcher.batch_find_nearest_places_parallel`: split the
chunk's locations into batches of `search_batch_size` and collect all
batch results. -/
def batchFindNearestParallel (placeType : PyStr) (es : EsOracle) (locs : List Loc) :
    Except Unit (List MatchResult) :=
  collectBatches placeType es (chunksOfF locs.length search_batch_size locs)

/-- One physically appended segment of the output CSV: whether this
write carried the header, and its rows. -/
structure Segment where
  withHeader : Bool
  rows : List MatchResult
deriving DecidableEq

/-- The chunk loop of `match_locations`: filter the chunk, match it,
accumulate, and flush to a new output segment whenever at least
`INTERMEDIATE_SAVE_INTERVAL` rows are pending, plus a final flush. -/
def matchLoop (placeType : PyStr) (es : EsOracle) (hasTT : Bool) :
    List (List UserRow) → List MatchResult → Bool → List Segment →
    Except Unit (List Segment)
  | [], acc, firstWrite, segs =>
    if acc = [] then Except.ok segs
    else Except.ok (segs ++ [{ withHeader := firstWrite, rows := acc }])
  | chunk :: rest, acc, firstWrite, segs =>
    let filtered := filterChunk placeType hasTT chunk
    if filtered = [] then matchLoop placeType es hasTT rest acc firstWrite segs
    else
      match batchFindNearestParallel placeType es (filtered.map toLoc) with
      | Except.error e => Except.error e
      | Except.ok chunkResults =>
        let acc2 := acc ++ chunkResults
        if INTERMEDIATE_SAVE_INTERVAL ≤ acc2.length then
          matchLoop placeType es hasTT rest [] false
            (segs ++ [{ withHeader := firstWrite, rows := acc2 }])
        else matchLoop placeType es hasTT rest acc2 firstWrite segs

/-- Embeds `SyncMatcher.match_locations` over the streamed input: the
rows are read in `CHUNK_SIZE` chunks and the output is the list of
segments appended to the output CSV. -/
def matchLocations (placeType : PyStr) (es : EsOracle) (df : UserDF) :
    Except Unit (List Segment) :=
  matchLoop placeType es df.hasTimeTypeCol
    (chunksOfF df.rows.length CHUNK_SIZE df.rows) [] true []

/-- Modelled from the spec's words: the single unchunked pass over the
same filtered rows, with no chunking and no intermediate flushing. -/
def singleUnchunkedPass (placeType : PyStr) (es : EsOracle) (df : UserDF) :
    Except Unit (List MatchResult) :=
  batchFindNearestParallel placeType es
    ((filterChunk placeType df.hasTimeTypeCol df.rows).map toLoc)

/-- Well-formedness of the backend: a sub-response that is not
error-tagged and reports a positive total carries at least one hit with
at least one sort value (what a real msearch reply always satisfies). -/
def WellFormedES (es : EsOracle) : Prop :=
  ∀ la lo, (es la lo).hasError = false → (es la lo).totalValue ≠ 0 →
    ∃ h t d u, (es la lo).hits = h :: t ∧ h.sortVals = d :: u

/-- Header discipline of the written output segments: the first carries
the CSV header, later appended ones do not. -/
def HeadersOk : List Segment → Prop
  | [] => True
  | s :: rest => s.withHeader = true ∧ ∀ t ∈ rest, t.withHeader = false

/-- One server page response in `fetch_all_pages`: `bad` is any raised
condition (request exception, JSON failure, a non-dict body, or a body
without the `data` key), `page` is a parsed body with its reported
`totalCount` and item list. -/
inductive PageResp where
  | bad : PyStr → PageResp
  | page : Nat → List PyStr → PageResp
deriving DecidableEq

/-- Items carried by a page response. -/
def pageItems : PageResp → List PyStr
  | .bad _ => []
  | .page _ its => its

/-- All items accumulated from pages 1 through `p`. -/
def itemsUpTo (server : Nat → PageResp) (p : Nat) : List PyStr :=
  ((List.range' 1 p).map (fun q => pageItems (server q))).flatten

/-- The stopping condition of the paging loop at page `p`: a raised
response, an empty item list, accumulated count at or past the reported
total, a short page, or the 100-page ceiling. -/
def stopsAt (server : Nat → PageResp) (p : Nat) : Prop :=
  match server p with
  | .bad _ => True
  | .page total its =>
    its = [] ∨ total ≤ (itemsUpTo server p).length ∨ its.length < per_page ∨ p = 100

/-- The paging loop of `fetch_all_pages`; the result pairs the list of
pages actually requested with the outcome (an `Except.error` is the
raised exception).  Fuel plus page is kept at 101 by the wrapper, so the
fuel-exhausted branch is unreachable. -/
def fetchLoop (server : Nat → PageResp) :
    Nat → Nat → List PyStr → List Nat × Except PyStr (List PyStr)
  | 0, _, acc => ([], Except.ok acc)
  | fuel + 1, page, acc =>
    match server page with
    | .bad msg => ([page], Except.error msg)
    | .page total its =>
      if its = [] then ([page], Except.ok acc)
      else
        let acc2 := acc ++ its
        if total ≤ acc2.length ∨ its.length < per_page then ([page], Except.ok acc2)
        else if 100 < page + 1 then ([page], Except.ok acc2)
        else
          let rec2 := fetchLoop server fuel (page + 1) acc2
          (page :: rec2.1, rec2.2)

/-- Embeds `collect_industry_codes.fetch_all_pages`. -/
def fetchAllPages (server : Nat → PageResp) : List Nat × Except PyStr (List PyStr) :=
  fetchLoop server 100 1 []

/-- Glob test for the dated-snapshot pattern `dataset_*.csv` (the `*`
matches any, possibly empty, character run). -/
def globDatedCsv (dataset : PyStr) (f : PyStr) : Bool :=
  List.isPrefixOf (dataset ++ ['_']) f && List.isSuffixOf ".csv".data f &&
    decide (dataset.length + 1 + 4 ≤ f.length)

/-- Embeds `cleanup_old_files` / `ReferenceDataManager._cleanup_old_files`
on a directory-listing model: every file matching the pattern other than
the kept one is unlinked (deletion modelled as succeeding). -/
def cleanupOldFiles (pattern : PyStr → Bool) (keep : PyStr) (dir : List PyStr) :
    List PyStr :=
  dir.filter (fun f => f == keep || !(pattern f))

/-- The dated file name `dataset_today.csv` written by a save. -/
def datedCsvName (dataset today : PyStr) : PyStr :=
  dataset ++ '_' :: (today ++ ".csv".data)

/-- Embeds `ReferenceDataManager.save_to_csv` on the directory model:
write the dated CSV for today, then delete the other files matching the
dataset's pattern. -/
def saveToCsv (dataset today : PyStr) (dir : List PyStr) : List PyStr :=
  cleanupOldFiles (globDatedCsv dataset) (datedCsvName dataset today)
    (if datedCsvName dataset today ∈ dir then dir
     else dir ++ [datedCsvName dataset today])

/-- The ten industry-hierarchy values copied onto a company row when its
raw code is found in the lookup. -/
structure DepthInfo where
  d1cd : PyStr
  d1nm : PyStr
  d2cd : PyStr
  d2nm : PyStr
  d3cd : PyStr
  d3nm : PyStr
  d4cd : PyStr
  d4nm : PyStr
  d5cd : PyStr
  d5nm : PyStr
deriving DecidableEq

/-- One company dataframe row with the columns the enrichment processors
touch; `extra` stands for all remaining columns, which no processor
writes. The ten industry columns are always written together, so they
are modelled as one optional block (`none` is the `None`-initialized
state). -/
structure CompanyRow where
  lat : Option Rat
  lon : Option Rat
  all_addr_nm : Option PyStr
  ctp_cd : Option PyStr
  ctp_nm : Option PyStr
  sig_cd : Option PyStr
  sig_nm : Option PyStr
  emd_cd : Option PyStr
  emd_nm : Option PyStr
  induty_code : Option PyStr
  depths : Option DepthInfo
  extra : PyStr
deriving DecidableEq

/-- Per-row action of `fix_missing_coordinates`: rows with a missing
coordinate and a usable address get coordinates from the geocoding
oracle (which returns `(lat, lon)` options); all other rows are left
untouched. -/
def fixRowCoords (geo : PyStr → Option Rat × Option Rat) (r : CompanyRow) : CompanyRow :=
  if r.lat.isNone || r.lon.isNone then
    match r.all_addr_nm with
    | none => r
    | some a =>
      if pyStrip a = [] then r
      else
        match geo a with
        | (some la, some lo) => { r with lat := some la, lon := some lo }
        | _ => r
  else r

/-- Embeds `fix_missing_coordinates` (the row mask is computed before
the loop and each update touches only its own row, so the loop is a
per-row map). -/
def fixMissingCoordinates (geo : PyStr → Option Rat × Option Rat)
    (df : List CompanyRow) : List CompanyRow :=
  df.map (fixRowCoords geo)

/-- Per-row action of `enrich_legal_dong_codes`: rows with a missing
region code and present coordinates get the six region fields from the
reverse-geocoding oracle (called as `(lon, lat)`). -/
def enrichRowLegalDong (ld : Rat → Rat → Option LegalDong) (r : CompanyRow) : CompanyRow :=
  if r.ctp_cd.isNone || r.sig_cd.isNone || r.emd_cd.isNone then
    match r.lat, r.lon with
    | some la, some lo =>
      match ld lo la with
      | some info =>
        { r with ctp_cd := info.ctp_cd, ctp_nm := some info.ctp_nm,
                 sig_cd := info.sig_cd, sig_nm := some info.sig_nm,
                 emd_cd := info.emd_cd, emd_nm := some info.emd_nm }
      | none => r
    | _, _ => r
  else r

/-- Embeds `enrich_legal_dong_codes` as a per-row map. -/
def enrichLegalDongCodes (ld : Rat → Rat → Option LegalDong)
    (df : List CompanyRow) : List CompanyRow :=
  df.map (enrichRowLegalDong ld)

/-- Per-row action of `add_industry_classification`: the ten industry
columns are first reset to `None`, then filled from the lookup keyed by
the row's stripped raw industry code when it is present and found. -/
def industryRow (lookup : PyStr → Option DepthInfo) (r : CompanyRow) : CompanyRow :=
  let r0 := { r with depths := none }
  match r.induty_code with
  | none => r0
  | some ic =>
    match lookup (pyStrip ic) with
    | some info => { r0 with depths := some info }
    | none => r0

/-- Embeds `add_industry_classification` as a per-row map (the lookup
built from the industry dataframe is passed as an oracle). -/
def addIndustryClassification (lookup : PyStr → Option DepthInfo)
    (df : List CompanyRow) : List CompanyRow :=
  df.map (industryRow lookup)

/-- Per-row action of `apply_address_deduplication`: the three region
names are rewritten through `remove_address_duplicates` on every row. -/
def dedupRow (r : CompanyRow) : CompanyRow :=
  let t := removeAddressDuplicates r.ctp_nm r.sig_nm r.emd_nm
  { r with ctp_nm := some t.1, sig_nm := some t.2.1, emd_nm := some t.2.2 }

/-- Embeds `apply_address_deduplication` as a per-row map. -/
def applyAddressDeduplication (df : List CompanyRow) : List CompanyRow :=
  df.map dedupRow

/-- Whether the bracketed-segment pattern matches somewhere: an open
paren with a close paren after it. -/
def parenMatchable : PyStr → Bool
  | [] => false
  | c :: r => (decide (c = '(') && r.contains ')') || parenMatchable r

/-- Whitespace normal form: every whitespace character is a plain space
and no two adjacent characters are both whitespace (the shape of
`collapseWs` output). -/
def wsNormal : PyStr → Bool
  | [] => true
  | c :: r =>
    ((!isWs c) || c == ' ') &&
      (match r with | [] => true | c2 :: _ => !(isWs c && isWs c2)) && wsNormal r

/-- The per-row match outcome against the deterministic backend, used to
relate the chunked and unchunked passes. -/
def rowFn (placeType : PyStr) (es : EsOracle) (l : Loc) : Option MatchResult :=
  let r := es l.1 l.2.1
  if r.hasError || r.totalValue == 0 then none
  else
    match r.hits with
    | [] => none
    | hit :: _ =>
      match hit.sortVals with
      | [] => none
      | d :: _ => some { adid := l.2.2, lat := l.1, lon := l.2.1, distance := d,
                         fields := resultFields placeType hit.src }

/-!  Theorems.  Helper lemmas come first, then one theorem per claim
(with a witness where the theorem carries hypotheses). -/

/-- Claim C9: the documented address de-duplication example: the province
name is stripped from the district name and the province-plus-district
prefix from the sub-district name. -/
theorem remove_address_duplicates_example :
    removeAddressDuplicates (some "전라남도".data) (some "전라남도 나주시".data)
      (some "전라남도 나주시 00동".data) =
    ("전라남도".data, "나주시".data, "00동".data) := by decide

/-- Counterexample to claim C8: cleaning is not idempotent.  On the
address "2 1호 층" the unit-number pass removes "1호", which glues the
leading digit to the floor character; the second cleaning pass then
removes "2 층" as a floor mark. -/
theorem clean_address_not_idempotent :
    cleanAddressForSearch (cleanAddressForSearch "2 1호 층".data) ≠
      cleanAddressForSearch "2 1호 층".data := by decide

/-- Claim C3: the geocoding client maps every failure shape to
`(None, None)` respectively `None` and never lets an exception escape;
with a usable response the coordinate lookup returns the first
document's longitude/latitude and the region lookup returns the record
built from the first legal-division document. -/
theorem kakao_client_error_handling :
    ∀ (address : PyStr),
      (getCoordinatesFromAddress address .exn = (none, none)) ∧
      (∀ oc, (address = [] ∨ pyStrip address = []) →
        getCoordinatesFromAddress address oc = (none, none)) ∧
      (∀ status docs, 400 ≤ status →
        getCoordinatesFromAddress address (.resp status docs) = (none, none)) ∧
      (∀ status, getCoordinatesFromAddress address (.resp status []) = (none, none)) ∧
      (∀ status d ds, ¬(address = [] ∨ pyStrip address = []) → status < 400 →
        getCoordinatesFromAddress address (.resp status (d :: ds)) = (some d.x, some d.y)) ∧
      (getLegalDongFromCoord .exn = none) ∧
      (∀ status docs, status ≠ 200 → getLegalDongFromCoord (.resp status docs) = none) ∧
      (∀ status, getLegalDongFromCoord (.resp status []) = none) ∧
      (∀ status docs, docs.find? (fun d => d.region_type == some "B".data) = none →
        getLegalDongFromCoord (.resp status docs) = none) ∧
      (∀ docs d, docs.find? (fun d2 => d2.region_type == some "B".data) = some d →
        getLegalDongFromCoord (.resp 200 docs) = some (legalDongRecord d)) := by
  intro address
  refine ⟨?_, ?_, ?_, ?_, ?_, ?_, ?_, ?_, ?_, ?_⟩
  · unfold getCoordinatesFromAddress
    split <;> rfl
  · intro oc h
    unfold getCoordinatesFromAddress
    rw [if_pos h]
  · intro status docs h
    unfold getCoordinatesFromAddress
    split
    · rfl
    · simp [h]
  · intro status
    unfold getCoordinatesFromAddress
    split
    · rfl
    · simp only []
      split <;> rfl
  · intro status d ds hne hlt
    unfold getCoordinatesFromAddress
    rw [if_neg hne]
    simp [show ¬ 400 ≤ status by omega]
  · rfl
  · intro status docs h
    simp [getLegalDongFromCoord, h]
  · intro status
    simp [getLegalDongFromCoord]
  · intro status docs h
    simp [getLegalDongFromCoord, h]
  · intro docs d h
    have hne : docs ≠ [] := by
      intro he
      rw [he] at h
      simp [List.find?] at h
    simp [getLegalDongFromCoord, hne, h]

/-- Witness for the claim C3 theorem at concrete inputs. -/
theorem kakao_client_error_handling_witness :
    getCoordinatesFromAddress "서울".data .exn = (none, none) ∧
    getCoordinatesFromAddress "서울".data
      (.resp 200 [{ x := 127, y := 37 }]) = (some 127, some 37) ∧
    getLegalDongFromCoord (.resp 500 []) = none := by
  have h := kakao_client_error_handling "서울".data
  exact ⟨h.1, h.2.2.2.2.1 200 ⟨127, 37⟩ [] (by decide) (by decide),
    h.2.2.2.2.2.2.1 500 [] (by decide)⟩

/-- Claim C4: the region-code decomposition in both copies of the
coord-to-region handler: province code is the first two characters
zero-padded to ten when the code has at least two characters, district
code the first five zero-padded when it has at least five, sub-district
code the full code exactly when it has exactly ten characters, and
`None` otherwise in each case. -/
theorem legal_code_decomposition :
    ∀ (docs : List RegionDoc) (d : RegionDoc) (c : PyStr),
      docs.find? (fun d2 => d2.region_type == some "B".data) = some d →
      d.code = some c →
      ∃ r, getLegalDongFromCoord (.resp 200 docs) = some r ∧
        enrichGetLegalDongFromCoord (.resp 200 docs) = some r ∧
        r.ctp_cd = (if 2 ≤ c.length then some (c.take 2 ++ "00000000".data) else none) ∧
        r.sig_cd = (if 5 ≤ c.length then some (c.take 5 ++ "00000".data) else none) ∧
        r.emd_cd = (if c.length = 10 then some c else none) := by
  intro docs d c hfind hcode
  have hne : docs ≠ [] := by
    intro he
    rw [he] at hfind
    simp [List.find?] at hfind
  refine ⟨legalDongRecord d, ?_, ?_, ?_, ?_, ?_⟩
  · simp [getLegalDongFromCoord, hne, hfind]
  · simp [enrichGetLegalDongFromCoord, hne, hfind]
  · simp [legalDongRecord, hcode]
  · simp [legalDongRecord, hcode]
  · simp [legalDongRecord, hcode]

/-- Witness for the claim C4 theorem on a concrete ten-character legal
code. -/
theorem legal_code_decomposition_witness :
    ∃ r, getLegalDongFromCoord (.resp 200
        [{ region_type := some "B".data, code := some "4617011000".data,
           region1 := some "전라남도".data, region2 := some "나주시".data,
           region3 := some "송월동".data }]) = some r ∧
      enrichGetLegalDongFromCoord (.resp 200
        [{ region_type := some "B".data, code := some "4617011000".data,
           region1 := some "전라남도".data, region2 := some "나주시".data,
           region3 := some "송월동".data }]) = some r ∧
      r.ctp_cd = (if 2 ≤ "4617011000".data.length then
        some ("4617011000".data.take 2 ++ "00000000".data) else none) ∧
      r.sig_cd = (if 5 ≤ "4617011000".data.length then
        some ("4617011000".data.take 5 ++ "00000".data) else none) ∧
      r.emd_cd = (if "4617011000".data.length = 10 then some "4617011000".data else none) :=
  legal_code_decomposition
    [{ region_type := some "B".data, code := some "4617011000".data,
       region1 := some "전라남도".data, region2 := some "나주시".data,
       region3 := some "송월동".data }]
    { region_type := some "B".data, code := some "4617011000".data,
      region1 := some "전라남도".data, region2 := some "나주시".data,
      region3 := some "송월동".data }
    "4617011000".data (by decide) (by decide)

/-- Helper: `isPrefixOf` holds on an appended extension. -/
theorem isPrefixOf_append_self : ∀ (x y : PyStr), List.isPrefixOf x (x ++ y) = true := by
  intro x y
  induction x with
  | nil => simp [List.isPrefixOf]
  | cons c t ih => simp [List.isPrefixOf, ih]

/-- Helper: the freshly written dated file matches its dataset's glob. -/
theorem globDatedCsv_self (dataset today : PyStr) :
    globDatedCsv dataset (datedCsvName dataset today) = true := by
  have h1 : List.isPrefixOf (dataset ++ ['_']) (datedCsvName dataset today) = true := by
    have : datedCsvName dataset today = (dataset ++ ['_']) ++ (today ++ ".csv".data) := by
      simp [datedCsvName]
    rw [this]
    exact isPrefixOf_append_self _ _
  have h2 : List.isSuffixOf ".csv".data (datedCsvName dataset today) = true := by
    have : datedCsvName dataset today = (dataset ++ '_' :: today) ++ ".csv".data := by
      simp [datedCsvName]
    rw [this]
    simp only [List.isSuffixOf, List.reverse_append]
    exact isPrefixOf_append_self _ _
  have h3 : dataset.length + 1 + 4 ≤ (datedCsvName dataset today).length := by
    have h4 : (".csv".data).length = 4 := rfl
    simp [datedCsvName, h4]
    omega
  simp [globDatedCsv, h1, h2, h3]

/-- Helper: filtering a duplicate-free list for one known member keeps
exactly that member. -/
theorem filter_beq_nodup (keep : PyStr) :
    ∀ l : List PyStr, l.Nodup → keep ∈ l → l.filter (fun a => a == keep) = [keep] := by
  intro l
  induction l with
  | nil => intro _ hm; cases hm
  | cons b t ih =>
    intro hnd hm
    rw [List.filter_cons]
    by_cases hb : b = keep
    · subst hb
      have hnotin : b ∉ t := (List.nodup_cons.mp hnd).1
      have ht : t.filter (fun a => a == b) = [] := by
        rw [List.filter_eq_nil_iff]
        intro a ha
        simp only [beq_iff_eq]
        intro he
        exact hnotin (he ▸ ha)
      simp [ht]
    · have hm2 : keep ∈ t := by
        rcases List.mem_cons.mp hm with h | h
        · exact absurd h.symm hb
        · exact h
      have hbeq : (b == keep) = false := by simp [hb]
      simp only [hbeq, if_neg]
      simp only [Bool.false_eq_true, if_false]
      exact ih (List.nodup_cons.mp hnd).2 hm2

/-- Helper: after a cleanup pass, the only surviving file matching the
pattern is the kept one. -/
theorem cleanup_then_filter (pattern : PyStr → Bool) (keep : PyStr) (l : List PyStr)
    (hnd : l.Nodup) (hm : keep ∈ l) (hp : pattern keep = true) :
    (cleanupOldFiles pattern keep l).filter pattern = [keep] := by
  unfold cleanupOldFiles
  rw [List.filter_filter]
  have hcong : ∀ a ∈ l, (pattern a && (a == keep || !pattern a)) = (a == keep) := by
    intro a _
    by_cases ha : a = keep
    · subst ha
      simp [hp]
    · have : (a == keep) = false := by simp [ha]
      simp [this]
  rw [List.filter_congr hcong]
  exact filter_beq_nodup keep l hnd hm

/-- Claim C5: after a successful dated save (manager save or collector
save plus cleanup), the new file is the only file matching the dataset's
`dataset_*.csv` pattern; every other matching file is gone. -/
theorem snapshot_single_live_file :
    ∀ (dataset today : PyStr) (dir : List PyStr) (pattern : PyStr → Bool) (keep : PyStr)
      (dir2 : List PyStr), dir.Nodup → dir2.Nodup → keep ∈ dir2 → pattern keep = true →
      (saveToCsv dataset today dir).filter (globDatedCsv dataset) =
          [datedCsvName dataset today] ∧
        (cleanupOldFiles pattern keep dir2).filter pattern = [keep] := by
  intro dataset today dir pattern keep dir2 hnd hnd2 hm hp
  constructor
  · unfold saveToCsv
    by_cases hmem : datedCsvName dataset today ∈ dir
    · rw [if_pos hmem]
      exact cleanup_then_filter _ _ _ hnd hmem (globDatedCsv_self _ _)
    · rw [if_neg hmem]
      have hnd3 : (dir ++ [datedCsvName dataset today]).Nodup := by
        rw [List.nodup_append]
        refine ⟨hnd, List.nodup_singleton _, ?_⟩
        intro a ha hb
        rw [List.mem_singleton] at hb
        exact hmem (hb ▸ ha)
      exact cleanup_then_filter _ _ _ hnd3
        (List.mem_append_right _ (List.mem_singleton_self _)) (globDatedCsv_self _ _)
  · exact cleanup_then_filter _ _ _ hnd2 hm hp

/-- Witness for the claim C5 theorem on a concrete directory. -/
theorem snapshot_single_live_file_witness :
    (saveToCsv "업종코드".data "20251012".data
        ["업종코드_20250101.csv".data, "other.txt".data]).filter
        (globDatedCsv "업종코드".data) =
      [datedCsvName "업종코드".data "20251012".data] ∧
    (cleanupOldFiles (globDatedCsv "d".data) "d_x.csv".data
        ["d_x.csv".data, "d_y.csv".data]).filter (globDatedCsv "d".data) =
      ["d_x.csv".data] :=
  snapshot_single_live_file "업종코드".data "20251012".data
    ["업종코드_20250101.csv".data, "other.txt".data] (globDatedCsv "d".data)
    "d_x.csv".data ["d_x.csv".data, "d_y.csv".data]
    (by decide) (by decide) (by decide) (by decide)

/-- Helper: the spec-side row list drops a skipped sub-response. -/
theorem specBatchRows_cons_skip {placeType : PyStr} {b : Loc} {bs : List Loc}
    {r : SubResp} {rs : List SubResp} (hc : (r.hasError || r.totalValue == 0) = true) :
    specBatchRows placeType (b :: bs) (r :: rs) = specBatchRows placeType bs rs := by
  have hc2 : r.hasError = true ∨ r.totalValue = 0 := by simpa using hc
  rcases hc2 with h | h
  · simp [specBatchRows, h]
  · simp [specBatchRows, h]

/-- Helper: the spec-side row list produces one row from a sub-response
with a hit. -/
theorem specBatchRows_cons_hit {placeType : PyStr} {b : Loc} {bs : List Loc}
    {r : SubResp} {rs : List SubResp} {hh : Hit} {t : List Hit} {d : Rat} {u : List Rat}
    (hc : (r.hasError || r.totalValue == 0) = false) (h2 : r.hits = hh :: t)
    (h3 : hh.sortVals = d :: u) :
    specBatchRows placeType (b :: bs) (r :: rs) =
      { adid := b.2.2, lat := b.1, lon := b.2.1, distance := d,
        fields := resultFields placeType hh.src } :: specBatchRows placeType bs rs := by
  have hc2 : r.hasError = false ∧ ¬ r.totalValue = 0 := by simpa using hc
  simp [specBatchRows, hc2.1, hc2.2, h2, h3]

/-- Helper: the response loop of `process_batch` computes the claim's
per-row reading, provided the sub-responses are as long as the batch
from the current index on and are well-formed. -/
theorem processRows_eq_spec (placeType : PyStr) (batch : List Loc) :
    ∀ (rs : List SubResp) (idx : Nat), batch.length = idx + rs.length →
      (∀ r ∈ rs, r.hasError = false → r.totalValue ≠ 0 →
        ∃ h t, r.hits = h :: t ∧ ∃ d u, h.sortVals = d :: u) →
      processRows placeType batch rs idx =
        Except.ok (specBatchRows placeType (batch.drop idx) rs) := by
  intro rs
  induction rs with
  | nil =>
    intro idx _ _
    simp [processRows, specBatchRows]
  | cons r rest ih =>
    intro idx hlen hwf
    have hidx : idx < batch.length := by rw [hlen, List.length_cons]; omega
    have hdrop : batch.drop idx = batch[idx] :: batch.drop (idx + 1) :=
      List.drop_eq_getElem_cons hidx
    have hlen2 : batch.length = (idx + 1) + rest.length := by
      rw [hlen, List.length_cons]; omega
    have hwf2 : ∀ r2 ∈ rest, r2.hasError = false → r2.totalValue ≠ 0 →
        ∃ h t, r2.hits = h :: t ∧ ∃ d u, h.sortVals = d :: u :=
      fun r2 hm => hwf r2 (List.mem_cons_of_mem _ hm)
    by_cases hskip : (r.hasError || r.totalValue == 0) = true
    · unfold processRows
      rw [if_pos hskip, ih (idx + 1) hlen2 hwf2, hdrop, specBatchRows_cons_skip hskip]
    · have hskip2 : (r.hasError || r.totalValue == 0) = false := by
        cases hb : (r.hasError || r.totalValue == 0)
        · rfl
        · exact absurd hb hskip
      have herr : r.hasError = false := by
        cases he : r.hasError
        · rfl
        · rw [he] at hskip; simp at hskip
      have htot : r.totalValue ≠ 0 := by
        intro he
        rw [Bool.or_eq_true] at hskip
        push_neg at hskip
        exact absurd (by simp [he]) hskip.2
      obtain ⟨h, t, hhits, d, u, hsort⟩ := hwf r (List.mem_cons_self r rest) herr htot
      have hget : batch[idx]? = some batch[idx] := List.getElem?_eq_getElem hidx
      unfold processRows
      rw [if_neg hskip]
      simp only [hget, hhits, hsort, ih (idx + 1) hlen2 hwf2]
      rw [hdrop, specBatchRows_cons_hit hskip2 hhits hsort]

/-- Claim C2: a batch whose every msearch attempt fails, or whose reply
lacks the `responses` field, yields no result rows; otherwise error and
zero-hit sub-responses are dropped and each sub-response with a hit
yields exactly one row with the nearest hit's first sort value as
distance. -/
theorem process_batch_error_handling :
    ∀ (placeType : PyStr) (batch : List Loc) (att : Nat → MsearchAttempt)
      (rs : List SubResp),
      ((∀ i, i < MAX_RETRIES → att i = .fail) →
        processBatch placeType batch (syncMsearch att) = Except.ok []) ∧
      processBatch placeType batch (some { responses := none }) = Except.ok [] ∧
      (batch.length = rs.length →
        (∀ r ∈ rs, r.hasError = false → r.totalValue ≠ 0 →
          ∃ h t, r.hits = h :: t ∧ ∃ d u, h.sortVals = d :: u) →
        processBatch placeType batch (some { responses := some rs }) =
          Except.ok (specBatchRows placeType batch rs)) := by
  intro placeType batch att rs
  refine ⟨?_, ?_, ?_⟩
  · intro hfail
    have h0 := hfail 0 (by simp [MAX_RETRIES])
    have h1 := hfail 1 (by simp [MAX_RETRIES])
    have h2 := hfail 2 (by simp [MAX_RETRIES])
    have : syncMsearch att = none := by
      simp [syncMsearch, MAX_RETRIES, syncMsearchLoop, h0, h1, h2]
    rw [this]
    rfl
  · rfl
  · intro hlen hwf
    have := processRows_eq_spec placeType batch rs 0 (by simpa using hlen) hwf
    simpa [processBatch] using this

/-- Witness for the claim C2 theorem: a two-row batch against a
zero-hit sub-response and a one-hit sub-response, plus the
abandoned-batch case. -/
theorem process_batch_error_handling_witness :
    processBatch "company".data [((37 : Rat), (127 : Rat), "a".data)]
        (syncMsearch (fun _ => .fail)) = Except.ok [] ∧
    processBatch "company".data
        [((37 : Rat), (127 : Rat), "a".data), ((38 : Rat), (128 : Rat), "c".data)]
        (some { responses := some ([
          { hasError := false, totalValue := 0, hits := [] },
          { hasError := false, totalValue := 2,
            hits := [{ sortVals := [(55 : Rat), 1],
                       src := { fac_cd := none, ctp_cd := some "11".data,
                                sig_cd := none, emd_cd := none,
                                corp_cd := some "7".data, corp_depth1_cd := none,
                                corp_depth2_cd := none, corp_depth3_cd := none,
                                corp_depth4_cd := none, corp_depth5_cd := none } }] }]) }) =
      Except.ok (specBatchRows "company".data
        [((37 : Rat), (127 : Rat), "a".data), ((38 : Rat), (128 : Rat), "c".data)]
        [{ hasError := false, totalValue := 0, hits := [] },
         { hasError := false, totalValue := 2,
           hits := [{ sortVals := [(55 : Rat), 1],
                      src := { fac_cd := none, ctp_cd := some "11".data,
                               sig_cd := none, emd_cd := none,
                               corp_cd := some "7".data, corp_depth1_cd := none,
                               corp_depth2_cd := none, corp_depth3_cd := none,
                               corp_depth4_cd := none, corp_depth5_cd := none } }] }]) := by
  refine ⟨?_, ?_⟩
  · exact (process_batch_error_handling "company".data
      [((37 : Rat), (127 : Rat), "a".data)] (fun _ => .fail) []).1
      (fun _ _ => rfl)
  · exact (process_batch_error_handling "company".data _ (fun _ => .fail) _).2.2 rfl
      (by
        intro r hm h1 h2
        simp only [List.mem_cons, List.mem_singleton] at hm
        rcases hm with rfl | rfl | hm
        · exact absurd rfl h2
        · exact ⟨_, [], rfl, 55, [1], rfl⟩
        · cases hm)

/-- Claim C10: the company daytime filter fires only when the
`time_type` column exists: without it, preprocessing is exactly the
coordinate dropna; with it, exactly the rows tagged `DAY` survive the
daytime criterion before the coordinate dropna. -/
theorem company_daytime_filter :
    ∀ (rows : List UserRow),
      filterChunk "company".data false rows =
        rows.filter (fun r => r.lat.isSome && r.lon.isSome) ∧
      filterChunk "company".data true rows =
        (rows.filter (fun r => r.time_type == some "DAY".data)).filter
          (fun r => r.lat.isSome && r.lon.isSome) := by
  intro rows
  constructor
  · simp [filterChunk]
  · simp [filterChunk]

/-- Helper: accumulated items through one more page. -/
theorem itemsUpTo_succ (server : Nat → PageResp) (p : Nat) :
    itemsUpTo server (p + 1) = itemsUpTo server p ++ pageItems (server (p + 1)) := by
  unfold itemsUpTo
  rw [List.range'_1_concat]
  simp [Nat.add_comm 1 p]

/-- Helper: characterization of the paging loop from any reachable
state: it visits consecutive pages until the first page where the
stopping condition holds, and returns the accumulated items (or the
raised error of that page). -/
theorem fetchLoop_spec (server : Nat → PageResp) :
    ∀ (fuel page : Nat), 1 ≤ page → page ≤ 100 → page + fuel = 101 →
      ∃ n, page ≤ n ∧ n ≤ 100 ∧
        (fetchLoop server fuel page (itemsUpTo server (page - 1))).1 =
            List.range' page (n + 1 - page) ∧
        stopsAt server n ∧
        (∀ p, page ≤ p → p < n → ¬ stopsAt server p) ∧
        (fetchLoop server fuel page (itemsUpTo server (page - 1))).2 =
          (match server n with
           | .bad msg => Except.error msg
           | .page _ _ => Except.ok (itemsUpTo server n)) := by
  intro fuel
  induction fuel with
  | zero => intro page h1 h2 h3; omega
  | succ f ih =>
    intro page h1 h2 h3
    have hpage1 : page - 1 + 1 = page := by omega
    have hone : page + 1 - page = 1 := by omega
    cases hs : server page with
    | bad msg =>
      refine ⟨page, le_refl _, h2, ?_, ?_, ?_, ?_⟩
      · simp [fetchLoop, hs, hone, List.range']
      · simp [stopsAt, hs]
      · intro p hp1 hp2; omega
      · simp [fetchLoop, hs]
    | page total its =>
      have hacc : itemsUpTo server (page - 1) ++ its = itemsUpTo server page := by
        conv_rhs => rw [← hpage1]
        rw [itemsUpTo_succ, hpage1, hs]
        rfl
      by_cases hempty : its = []
      · refine ⟨page, le_refl _, h2, ?_, ?_, ?_, ?_⟩
        · simp [fetchLoop, hs, hempty, hone, List.range']
        · simp [stopsAt, hs, hempty]
        · intro p hp1 hp2; omega
        · have hsame : itemsUpTo server (page - 1) = itemsUpTo server page := by
            rw [← hacc, hempty, List.append_nil]
          simp [fetchLoop, hs, hempty, hsame]
      · by_cases hstop : total ≤ (itemsUpTo server (page - 1) ++ its).length ∨
            its.length < per_page
        · have hstopL : total ≤ (itemsUpTo server (page - 1)).length + its.length ∨
              its.length < per_page := by simpa using hstop
          refine ⟨page, le_refl _, h2, ?_, ?_, ?_, ?_⟩
          · simp [fetchLoop, hs, hempty, hstopL, hone, List.range']
          · rw [hacc] at hstop
            simp [stopsAt, hs]
            tauto
          · intro p hp1 hp2; omega
          · have hstopP := hstop
            rw [hacc] at hstopP
            simp [fetchLoop, hs, hempty, hstopL, hstopP, hacc]
        · by_cases hceil : 100 < page + 1
          · have hp100 : page = 100 := by omega
            subst hp100
            have hstopL : ¬(total ≤ (itemsUpTo server (100 - 1)).length + its.length ∨
                its.length < per_page) := by simpa using hstop
            refine ⟨100, le_refl _, h2, ?_, ?_, ?_, ?_⟩
            · simp [fetchLoop, hs, hempty, hstopL, hceil, hone, List.range']
            · simp [stopsAt, hs]
            · intro p hp1 hp2; omega
            · simp [fetchLoop, hs, hempty, hstopL, hceil, hacc]
          · have h1b : 1 ≤ page + 1 := by omega
            have h2b : page + 1 ≤ 100 := by omega
            have h3b : (page + 1) + f = 101 := by omega
            obtain ⟨n, hn1, hn2, hfst, hstopn, hmid, hsnd⟩ := ih (page + 1) h1b h2b h3b
            have haccb : itemsUpTo server (page + 1 - 1) = itemsUpTo server page := by
              simp
            rw [haccb, ← hacc] at hfst hsnd
            refine ⟨n, by omega, hn2, ?_, hstopn, ?_, ?_⟩
            · have hlen : n + 1 - page = (n + 1 - (page + 1)) + 1 := by omega
              rw [hlen, List.range'_succ]
              simp only [fetchLoop, hs]
              rw [if_neg hempty, if_neg hstop, if_neg hceil]
              simp [hfst]
            · intro p hp1 hp2
              by_cases hpp : p = page
              · subst hpp
                simp only [stopsAt, hs]
                push_neg
                rw [hacc] at hstop
                push_neg at hstop
                exact ⟨hempty, hstop.1, hstop.2, by omega⟩
              · exact hmid p (by omega) hp2
            · simp only [fetchLoop, hs]
              rw [if_neg hempty, if_neg hstop, if_neg hceil]
              simp [hsnd]

/-- Claim C7: the paging loop terminates for every sequence of server
responses, requesting consecutive pages 1..n with n at most 100, and
stops exactly at the first page satisfying a stop condition
(raised/malformed response with no retry, empty or short page,
accumulated count reaching the reported total, or the 100-page
ceiling); the outcome is the accumulated items, or the raised error when
the stopping page was bad. -/
theorem fetch_all_pages_termination :
    ∀ server : Nat → PageResp, ∃ n, 1 ≤ n ∧ n ≤ 100 ∧
      (fetchAllPages server).1 = List.range' 1 n ∧
      stopsAt server n ∧
      (∀ p, 1 ≤ p → p < n → ¬ stopsAt server p) ∧
      (fetchAllPages server).2 = (match server n with
        | .bad msg => Except.error msg
        | .page _ _ => Except.ok (itemsUpTo server n)) := by
  intro server
  have hinit : itemsUpTo server 0 = [] := by simp [itemsUpTo]
  obtain ⟨n, hn1, hn2, hfst, hstopn, hmid, hsnd⟩ :=
    fetchLoop_spec server 100 1 (by omega) (by omega) (by omega)
  rw [show (1 : Nat) - 1 = 0 from rfl, hinit] at hfst hsnd
  refine ⟨n, hn1, hn2, ?_, hstopn, hmid, ?_⟩
  · unfold fetchAllPages
    rw [hfst]
    have hnn : n + 1 - 1 = n := by omega
    rw [hnn]
  · unfold fetchAllPages
    rw [hsnd]


/-- Helper: coordinate fixing either leaves the row unchanged or writes
only the two coordinate columns. -/
theorem fixRowCoords_cases (geo : PyStr → Option Rat × Option Rat) (r : CompanyRow) :
    fixRowCoords geo r = r ∨
      ∃ la lo, fixRowCoords geo r = { r with lat := some la, lon := some lo } := by
  unfold fixRowCoords
  split
  · split
    · exact Or.inl rfl
    · split
      · exact Or.inl rfl
      · split
        · exact Or.inr ⟨_, _, rfl⟩
        · exact Or.inl rfl
  · exact Or.inl rfl

/-- Helper: region-code enrichment either leaves the row unchanged or
writes only the six region columns. -/
theorem enrichRowLegalDong_cases (ld : Rat → Rat → Option LegalDong) (r : CompanyRow) :
    enrichRowLegalDong ld r = r ∨
      ∃ info : LegalDong, enrichRowLegalDong ld r =
        { r with ctp_cd := info.ctp_cd, ctp_nm := some info.ctp_nm,
                 sig_cd := info.sig_cd, sig_nm := some info.sig_nm,
                 emd_cd := info.emd_cd, emd_nm := some info.emd_nm } := by
  unfold enrichRowLegalDong
  split
  · split
    · split
      · exact Or.inr ⟨_, rfl⟩
      · exact Or.inl rfl
    · exact Or.inl rfl
  · exact Or.inl rfl

/-- Helper: industry matching writes only the industry columns. -/
theorem industryRow_cases (lookup : PyStr → Option DepthInfo) (r : CompanyRow) :
    ∃ dep, industryRow lookup r = { r with depths := dep } := by
  unfold industryRow
  split
  · exact ⟨none, rfl⟩
  · split
    · exact ⟨_, rfl⟩
    · exact ⟨none, rfl⟩

/-- Helper: address de-duplication writes only the three region name
columns. -/
theorem dedupRow_cases (r : CompanyRow) :
    ∃ x y z, dedupRow r = { r with ctp_nm := x, sig_nm := y, emd_nm := z } :=
  ⟨_, _, _, rfl⟩

/-- Helper: a row with both coordinates present is untouched by
coordinate fixing. -/
theorem fixRowCoords_populated (geo : PyStr → Option Rat × Option Rat) (r : CompanyRow)
    (h1 : r.lat.isSome) (h2 : r.lon.isSome) : fixRowCoords geo r = r := by
  unfold fixRowCoords
  rw [if_neg]
  simp only [Bool.or_eq_true, Option.isNone_iff_eq_none]
  push_neg
  exact ⟨Option.isSome_iff_ne_none.mp h1, Option.isSome_iff_ne_none.mp h2⟩

/-- Helper: a row with all three region codes present is untouched by
region-code enrichment. -/
theorem enrichRowLegalDong_populated (ld : Rat → Rat → Option LegalDong) (r : CompanyRow)
    (h1 : r.ctp_cd.isSome) (h2 : r.sig_cd.isSome) (h3 : r.emd_cd.isSome) :
    enrichRowLegalDong ld r = r := by
  unfold enrichRowLegalDong
  rw [if_neg]
  simp only [Bool.or_eq_true, Option.isNone_iff_eq_none]
  push_neg
  exact ⟨⟨Option.isSome_iff_ne_none.mp h1, Option.isSome_iff_ne_none.mp h2⟩,
    Option.isSome_iff_ne_none.mp h3⟩

/-- Helper: a map whose function fixes every member is the identity. -/
theorem map_eq_self_of {α : Type} (l : List α) (f : α → α) (h : ∀ x ∈ l, f x = x) :
    l.map f = l := by
  induction l with
  | nil => rfl
  | cons a t ih =>
    rw [List.map_cons, h a (List.mem_cons_self a t)]
    rw [ih (fun x hx => h x (List.mem_cons_of_mem a hx))]

/-- Counterexample to claim C6: `apply_address_deduplication` rewrites
already-present name fields.  A fully populated row whose district name
repeats the province name is changed by the processor, so it is not the
case that every processor leaves fully populated records untouched. -/
theorem dedup_changes_populated_row :
    applyAddressDeduplication
      [{ lat := some 35, lon := some 126,
         all_addr_nm := some "주소".data, ctp_cd := some "46".data,
         ctp_nm := some "전라남도".data, sig_cd := some "46170".data,
         sig_nm := some "전라남도 나주시".data, emd_cd := some "4617011000".data,
         emd_nm := some "송월동".data, induty_code := some "42209".data,
         depths := some ⟨"C".data, [], "42".data, [], [], [], [], [], [], []⟩,
         extra := [] }] ≠
      [{ lat := some 35, lon := some 126,
         all_addr_nm := some "주소".data, ctp_cd := some "46".data,
         ctp_nm := some "전라남도".data, sig_cd := some "46170".data,
         sig_nm := some "전라남도 나주시".data, emd_cd := some "4617011000".data,
         emd_nm := some "송월동".data, induty_code := some "42209".data,
         depths := some ⟨"C".data, [], "42".data, [], [], [], [], [], [], []⟩,
         extra := [] }] := by decide

/-- Claim C6 as amended: every processor preserves row count and row
order (per-row maps over the dataframe), each writes only its own
columns, and the coordinate and region-code processors leave a
dataframe whose relevant fields are all present entirely unchanged.
(The industry processor recomputes its ten columns from the raw code
and the de-duplication processor rewrites the three name columns on
every row, so those two may change populated values.) -/
theorem processors_frame_and_length :
    ∀ (geo : PyStr → Option Rat × Option Rat) (ld : Rat → Rat → Option LegalDong)
      (lookup : PyStr → Option DepthInfo) (df : List CompanyRow),
      (fixMissingCoordinates geo df).length = df.length ∧
      (enrichLegalDongCodes ld df).length = df.length ∧
      (addIndustryClassification lookup df).length = df.length ∧
      (applyAddressDeduplication df).length = df.length ∧
      (∀ (i : Nat) (r : CompanyRow), df[i]? = some r → ∃ la lo,
        (fixMissingCoordinates geo df)[i]? = some { r with lat := la, lon := lo }) ∧
      (∀ (i : Nat) (r : CompanyRow), df[i]? = some r → ∃ a b c d e f,
        (enrichLegalDongCodes ld df)[i]? =
          some { r with ctp_cd := a, ctp_nm := b, sig_cd := c, sig_nm := d,
                        emd_cd := e, emd_nm := f }) ∧
      (∀ (i : Nat) (r : CompanyRow), df[i]? = some r → ∃ dep,
        (addIndustryClassification lookup df)[i]? = some { r with depths := dep }) ∧
      (∀ (i : Nat) (r : CompanyRow), df[i]? = some r → ∃ x y z,
        (applyAddressDeduplication df)[i]? =
          some { r with ctp_nm := x, sig_nm := y, emd_nm := z }) ∧
      ((∀ r ∈ df, r.lat.isSome ∧ r.lon.isSome) → fixMissingCoordinates geo df = df) ∧
      ((∀ r ∈ df, r.ctp_cd.isSome ∧ r.sig_cd.isSome ∧ r.emd_cd.isSome) →
        enrichLegalDongCodes ld df = df) := by
  intro geo ld lookup df
  refine ⟨by simp [fixMissingCoordinates], by simp [enrichLegalDongCodes],
    by simp [addIndustryClassification], by simp [applyAddressDeduplication],
    ?_, ?_, ?_, ?_, ?_, ?_⟩
  · intro i r hr
    have heta : ({ r with lat := r.lat, lon := r.lon } : CompanyRow) = r := rfl
    rcases fixRowCoords_cases geo r with h | ⟨la, lo, h⟩
    · refine ⟨r.lat, r.lon, ?_⟩
      rw [heta]
      simp [fixMissingCoordinates, hr, h]
    · refine ⟨some la, some lo, ?_⟩
      simp [fixMissingCoordinates, hr, h]
  · intro i r hr
    have heta :
        ({ r with ctp_cd := r.ctp_cd, ctp_nm := r.ctp_nm, sig_cd := r.sig_cd,
                  sig_nm := r.sig_nm, emd_cd := r.emd_cd,
                  emd_nm := r.emd_nm } : CompanyRow) = r := rfl
    rcases enrichRowLegalDong_cases ld r with h | ⟨info, h⟩
    · refine ⟨r.ctp_cd, r.ctp_nm, r.sig_cd, r.sig_nm, r.emd_cd, r.emd_nm, ?_⟩
      rw [heta]
      simp [enrichLegalDongCodes, hr, h]
    · refine ⟨info.ctp_cd, some info.ctp_nm, info.sig_cd, some info.sig_nm,
        info.emd_cd, some info.emd_nm, ?_⟩
      simp [enrichLegalDongCodes, hr, h]
  · intro i r hr
    obtain ⟨dep, h⟩ := industryRow_cases lookup r
    exact ⟨dep, by simp [addIndustryClassification, hr, h]⟩
  · intro i r hr
    obtain ⟨x, y, z, h⟩ := dedupRow_cases r
    exact ⟨x, y, z, by simp [applyAddressDeduplication, hr, h]⟩
  · intro hpop
    unfold fixMissingCoordinates
    exact map_eq_self_of df _ (fun r hm =>
      fixRowCoords_populated geo r (hpop r hm).1 (hpop r hm).2)
  · intro hpop
    unfold enrichLegalDongCodes
    exact map_eq_self_of df _ (fun r hm =>
      enrichRowLegalDong_populated ld r (hpop r hm).1 (hpop r hm).2.1 (hpop r hm).2.2)

/-- Witness for the amended claim C6 theorem on a concrete one-row
dataframe with all relevant fields populated. -/
theorem processors_frame_and_length_witness :
    fixMissingCoordinates (fun _ => (none, none))
      [{ lat := some 35, lon := some 126,
         all_addr_nm := some "주소".data, ctp_cd := some "46".data,
         ctp_nm := some "전라남도".data, sig_cd := some "46170".data,
         sig_nm := some "나주시".data, emd_cd := some "4617011000".data,
         emd_nm := some "송월동".data, induty_code := some "42209".data,
         depths := none, extra := [] }] =
      [{ lat := some 35, lon := some 126,
         all_addr_nm := some "주소".data, ctp_cd := some "46".data,
         ctp_nm := some "전라남도".data, sig_cd := some "46170".data,
         sig_nm := some "나주시".data, emd_cd := some "4617011000".data,
         emd_nm := some "송월동".data, induty_code := some "42209".data,
         depths := none, extra := [] }] ∧
    enrichLegalDongCodes (fun _ _ => none)
      [{ lat := some 35, lon := some 126,
         all_addr_nm := some "주소".data, ctp_cd := some "46".data,
         ctp_nm := some "전라남도".data, sig_cd := some "46170".data,
         sig_nm := some "나주시".data, emd_cd := some "4617011000".data,
         emd_nm := some "송월동".data, induty_code := some "42209".data,
         depths := none, extra := [] }] =
      [{ lat := some 35, lon := some 126,
         all_addr_nm := some "주소".data, ctp_cd := some "46".data,
         ctp_nm := some "전라남도".data, sig_cd := some "46170".data,
         sig_nm := some "나주시".data, emd_cd := some "4617011000".data,
         emd_nm := some "송월동".data, induty_code := some "42209".data,
         depths := none, extra := [] }] := by
  have h := processors_frame_and_length (fun _ => (none, none)) (fun _ _ => none)
    (fun _ => none)
    [{ lat := some 35, lon := some 126,
       all_addr_nm := some "주소".data, ctp_cd := some "46".data,
       ctp_nm := some "전라남도".data, sig_cd := some "46170".data,
       sig_nm := some "나주시".data, emd_cd := some "4617011000".data,
       emd_nm := some "송월동".data, induty_code := some "42209".data,
       depths := none, extra := [] }]
  exact ⟨h.2.2.2.2.2.2.2.2.1 (by decide), h.2.2.2.2.2.2.2.2.2 (by decide)⟩

/-- Helper: chunking with enough fuel and positive chunk size is a
partition. -/
theorem chunksOfF_flatten {α : Type} (n : Nat) (_hn : 1 ≤ n) :
    ∀ (fuel : Nat) (l : List α), l.length ≤ fuel → (chunksOfF fuel n l).flatten = l := by
  intro fuel
  induction fuel with
  | zero =>
    intro l hl
    have : l = [] := List.length_eq_zero.mp (Nat.le_zero.mp hl)
    subst this
    rfl
  | succ f ih =>
    intro l hl
    cases l with
    | nil => rfl
    | cons x xs =>
      have hstep : chunksOfF (f + 1) n (x :: xs) =
          (x :: xs.take (n - 1)) :: chunksOfF f n (xs.drop (n - 1)) := rfl
      rw [hstep, List.flatten_cons]
      have hdl : (xs.drop (n - 1)).length ≤ f := by
        rw [List.length_drop]
        have : xs.length + 1 ≤ f + 1 := by simpa using hl
        omega
      rw [ih (xs.drop (n - 1)) hdl]
      simp [List.take_append_drop]

/-- Helper: the per-row function agrees with the spec-side reading of a
backend sub-response. -/
theorem specBatchRows_map (placeType : PyStr) (es : EsOracle) (hwf : WellFormedES es) :
    ∀ b : List Loc,
      specBatchRows placeType b (b.map (fun l => es l.1 l.2.1)) =
        b.filterMap (rowFn placeType es) := by
  intro b
  induction b with
  | nil => rfl
  | cons l t ih =>
    rw [List.map_cons, List.filterMap_cons]
    by_cases hc : ((es l.1 l.2.1).hasError || (es l.1 l.2.1).totalValue == 0) = true
    · rw [specBatchRows_cons_skip hc, ih]
      have hnone : rowFn placeType es l = none := by
        simp only [rowFn]
        rw [if_pos hc]
      rw [hnone]
    · have hc2 : ((es l.1 l.2.1).hasError || (es l.1 l.2.1).totalValue == 0) = false := by
        cases hb : ((es l.1 l.2.1).hasError || (es l.1 l.2.1).totalValue == 0)
        · rfl
        · exact absurd hb hc
      have herr : (es l.1 l.2.1).hasError = false := by
        have := hc2
        simp only [Bool.or_eq_false_iff] at this
        exact this.1
      have htot : (es l.1 l.2.1).totalValue ≠ 0 := by
        have := hc2
        simp only [Bool.or_eq_false_iff, beq_eq_false_iff_ne, ne_eq] at this
        exact this.2
      obtain ⟨hh, ht, hd, hu, hhits, hsort⟩ := hwf l.1 l.2.1 herr htot
      rw [specBatchRows_cons_hit hc2 hhits hsort, ih]
      have hsome : rowFn placeType es l =
          some { adid := l.2.2, lat := l.1, lon := l.2.1, distance := hd,
                 fields := resultFields placeType hh.src } := by
        simp only [rowFn]
        rw [if_neg hc, hhits]
        simp only [hsort]
      rw [hsome]

/-- Helper: one batch processed against the backend's responses yields
the per-row results. -/
theorem processBatch_oracle (placeType : PyStr) (es : EsOracle) (hwf : WellFormedES es)
    (b : List Loc) :
    processBatch placeType b (some (batchResponses es b)) =
      Except.ok (b.filterMap (rowFn placeType es)) := by
  have hlen : b.length = 0 + (b.map (fun l => es l.1 l.2.1)).length := by simp
  have hwfr : ∀ r ∈ b.map (fun l => es l.1 l.2.1), r.hasError = false →
      r.totalValue ≠ 0 → ∃ h t, r.hits = h :: t ∧ ∃ d u, h.sortVals = d :: u := by
    intro r hm h1 h2
    obtain ⟨l, _, rfl⟩ := List.mem_map.mp hm
    obtain ⟨hh, ht, hd, hu, hhits, hsort⟩ := hwf l.1 l.2.1 h1 h2
    exact ⟨hh, ht, hhits, hd, hu, hsort⟩
  have hspec := processRows_eq_spec placeType b (b.map (fun l => es l.1 l.2.1)) 0 hlen hwfr
  have hred : processBatch placeType b (some (batchResponses es b)) =
      processRows placeType b (b.map (fun l => es l.1 l.2.1)) 0 := rfl
  rw [hred, hspec]
  simp [specBatchRows_map placeType es hwf b]

/-- Helper: collecting a batch list concatenates the per-row results. -/
theorem collectBatches_ok (placeType : PyStr) (es : EsOracle) (hwf : WellFormedES es) :
    ∀ bs : List (List Loc),
      collectBatches placeType es bs =
        Except.ok (bs.flatten.filterMap (rowFn placeType es)) := by
  intro bs
  induction bs with
  | nil => rfl
  | cons b t ih =>
    unfold collectBatches
    rw [processBatch_oracle placeType es hwf b, ih]
    simp [List.filterMap_append]

/-- Helper: the parallel batch search over a location list computes the
per-row results, independently of the batch decomposition. -/
theorem batchFind_ok (placeType : PyStr) (es : EsOracle) (hwf : WellFormedES es)
    (locs : List Loc) :
    batchFindNearestParallel placeType es locs =
      Except.ok (locs.filterMap (rowFn placeType es)) := by
  unfold batchFindNearestParallel
  rw [collectBatches_ok placeType es hwf]
  rw [chunksOfF_flatten search_batch_size (by norm_num [search_batch_size])
    locs.length locs (le_refl _)]

/-- Helper: the chunk filter distributes over concatenation. -/
theorem filterChunk_append (placeType : PyStr) (hTT : Bool) (a b : List UserRow) :
    filterChunk placeType hTT (a ++ b) =
      filterChunk placeType hTT a ++ filterChunk placeType hTT b := by
  unfold filterChunk
  split <;> simp [List.filter_append]

/-- Helper: the chunk loop of `match_locations` appends segments whose
rows, concatenated, are the pending accumulator followed by the per-row
results of all remaining chunks; every flushed segment is nonempty, and
the header appears exactly on the first segment written while
`first_write` is still set. -/
theorem matchLoop_spec (placeType : PyStr) (es : EsOracle) (hTT : Bool)
    (hwf : WellFormedES es) :
    ∀ (chunks : List (List UserRow)) (acc : List MatchResult) (fw : Bool)
      (segs : List Segment),
      ∃ D : List Segment,
        matchLoop placeType es hTT chunks acc fw segs = Except.ok (segs ++ D) ∧
        (D.map Segment.rows).flatten =
          acc ++ ((filterChunk placeType hTT chunks.flatten).map toLoc).filterMap
            (rowFn placeType es) ∧
        (∀ s ∈ D, s.rows ≠ []) ∧
        (fw = true → HeadersOk D) ∧
        (fw = false → ∀ s ∈ D, s.withHeader = false) := by
  intro chunks
  induction chunks with
  | nil =>
    intro acc fw segs
    by_cases ha : acc = []
    · refine ⟨[], ?_, ?_, ?_, ?_, ?_⟩
      · simp [matchLoop, ha]
      · simp [ha, filterChunk]
      · intro s hs; cases hs
      · intro _; trivial
      · intro _ s hs; cases hs
    · refine ⟨[{ withHeader := fw, rows := acc }], ?_, ?_, ?_, ?_, ?_⟩
      · simp [matchLoop, ha]
      · simp [filterChunk]
      · intro s hs
        rw [List.mem_singleton] at hs
        subst hs
        exact ha
      · intro hfw
        subst hfw
        exact ⟨rfl, fun t ht => absurd ht (List.not_mem_nil t)⟩
      · intro hfw s hs
        rw [List.mem_singleton] at hs
        subst hs
        exact hfw
  | cons chunk rest ih =>
    intro acc fw segs
    have hflat : filterChunk placeType hTT (chunk :: rest).flatten =
        filterChunk placeType hTT chunk ++ filterChunk placeType hTT rest.flatten := by
      rw [List.flatten_cons, filterChunk_append]
    by_cases hf : filterChunk placeType hTT chunk = []
    · obtain ⟨D, h1, h2, h3, h4, h5⟩ := ih acc fw segs
      refine ⟨D, ?_, ?_, h3, h4, h5⟩
      · simp only [matchLoop]
        rw [if_pos hf]
        exact h1
      · rw [h2, hflat, hf]
        simp
    · have hbf := batchFind_ok placeType es hwf ((filterChunk placeType hTT chunk).map toLoc)
      by_cases hsave : INTERMEDIATE_SAVE_INTERVAL ≤
          (acc ++ ((filterChunk placeType hTT chunk).map toLoc).filterMap
            (rowFn placeType es)).length
      · obtain ⟨D, h1, h2, h3, h4, h5⟩ := ih [] false
          (segs ++ [⟨fw, acc ++ ((filterChunk placeType hTT chunk).map toLoc).filterMap
            (rowFn placeType es)⟩])
        refine ⟨⟨fw, acc ++ ((filterChunk placeType hTT chunk).map toLoc).filterMap
          (rowFn placeType es)⟩ :: D, ?_, ?_, ?_, ?_, ?_⟩
        · simp only [matchLoop]
          rw [if_neg hf, hbf]
          simp only []
          rw [if_pos hsave, h1]
          rw [List.append_assoc]
          rfl
        · simp only [List.map_cons, List.flatten_cons]
          rw [h2, filterChunk_append]
          simp [List.filterMap_append, List.map_append, List.append_assoc]
        · intro s hs
          rcases List.mem_cons.mp hs with rfl | hs2
          · intro he
            have he2 : acc ++ ((filterChunk placeType hTT chunk).map toLoc).filterMap
                (rowFn placeType es) = [] := he
            rw [he2] at hsave
            simp [INTERMEDIATE_SAVE_INTERVAL] at hsave
          · exact h3 s hs2
        · intro hfw
          subst hfw
          exact ⟨rfl, h5 rfl⟩
        · intro hfw s hs
          rcases List.mem_cons.mp hs with rfl | hs2
          · exact hfw
          · exact h5 rfl s hs2
      · obtain ⟨D, h1, h2, h3, h4, h5⟩ := ih
          (acc ++ ((filterChunk placeType hTT chunk).map toLoc).filterMap
            (rowFn placeType es)) fw segs
        refine ⟨D, ?_, ?_, h3, h4, h5⟩
        · simp only [matchLoop]
          rw [if_neg hf, hbf]
          simp only []
          rw [if_neg hsave, h1]
        · rw [h2, hflat]
          simp [List.filterMap_append, List.map_append, List.append_assoc]

/-- Claim C1: the chunked, checkpoint-flushing matching pass produces an
output whose concatenated segments equal, row for row, the result of a
single unchunked pass over the same filtered rows, and only the first
written segment carries the CSV header. -/
theorem matcher_chunked_equals_unchunked :
    ∀ (placeType : PyStr) (es : EsOracle) (df : UserDF), WellFormedES es →
      ∃ segs rows,
        matchLocations placeType es df = Except.ok segs ∧
        singleUnchunkedPass placeType es df = Except.ok rows ∧
        (segs.map Segment.rows).flatten = rows ∧
        (∀ s ∈ segs, s.rows ≠ []) ∧
        HeadersOk segs := by
  intro placeType es df hwf
  obtain ⟨D, h1, h2, h3, h4, h5⟩ := matchLoop_spec placeType es df.hasTimeTypeCol hwf
    (chunksOfF df.rows.length CHUNK_SIZE df.rows) [] true []
  have hchunks : (chunksOfF df.rows.length CHUNK_SIZE df.rows).flatten = df.rows :=
    chunksOfF_flatten CHUNK_SIZE (by norm_num [CHUNK_SIZE]) df.rows.length df.rows
      (le_refl _)
  refine ⟨D, ((filterChunk placeType df.hasTimeTypeCol df.rows).map toLoc).filterMap
    (rowFn placeType es), ?_, ?_, ?_, h3, h4 rfl⟩
  · unfold matchLocations
    rw [h1]
    simp
  · unfold singleUnchunkedPass
    exact batchFind_ok placeType es hwf _
  · rw [h2, hchunks]
    simp

/-- Witness for the claim C1 theorem: a one-row input matched against a
backend that always returns one hit at distance 7. -/
theorem matcher_chunked_equals_unchunked_witness :
    ∃ segs rows,
      matchLocations "university".data
          (fun _ _ => { hasError := false, totalValue := 1,
                        hits := [{ sortVals := [(7 : Rat)],
                                   src := { fac_cd := some "f".data, ctp_cd := none,
                                            sig_cd := none, emd_cd := none,
                                            corp_cd := none, corp_depth1_cd := none,
                                            corp_depth2_cd := none,
                                            corp_depth3_cd := none,
                                            corp_depth4_cd := none,
                                            corp_depth5_cd := none } }] })
          { hasTimeTypeCol := false,
            rows := [{ adid := "a".data, lat := some 37, lon := some 127,
                       time_type := none }] } = Except.ok segs ∧
      singleUnchunkedPass "university".data
          (fun _ _ => { hasError := false, totalValue := 1,
                        hits := [{ sortVals := [(7 : Rat)],
                                   src := { fac_cd := some "f".data, ctp_cd := none,
                                            sig_cd := none, emd_cd := none,
                                            corp_cd := none, corp_depth1_cd := none,
                                            corp_depth2_cd := none,
                                            corp_depth3_cd := none,
                                            corp_depth4_cd := none,
                                            corp_depth5_cd := none } }] })
          { hasTimeTypeCol := false,
            rows := [{ adid := "a".data, lat := some 37, lon := some 127,
                       time_type := none }] } = Except.ok rows ∧
      (segs.map Segment.rows).flatten = rows ∧
      (∀ s ∈ segs, s.rows ≠ []) ∧
      HeadersOk segs :=
  matcher_chunked_equals_unchunked "university".data
    (fun _ _ => { hasError := false, totalValue := 1,
                  hits := [{ sortVals := [(7 : Rat)],
                             src := { fac_cd := some "f".data, ctp_cd := none,
                                      sig_cd := none, emd_cd := none,
                                      corp_cd := none, corp_depth1_cd := none,
                                      corp_depth2_cd := none, corp_depth3_cd := none,
                                      corp_depth4_cd := none,
                                      corp_depth5_cd := none } }] })
    { hasTimeTypeCol := false,
      rows := [{ adid := "a".data, lat := some 37, lon := some 127,
                 time_type := none }] }
    (fun _ _ _ _ => ⟨_, _, _, _, rfl, rfl⟩)

/-- Helper: `pyRstrip` returns a prefix of its input. -/
theorem pyRstrip_is_prefix_part : ∀ l : PyStr, ∃ t, pyRstrip l ++ t = l := by
  intro l
  induction l with
  | nil => exact ⟨[], rfl⟩
  | cons c rest ih =>
    obtain ⟨t, ht⟩ := ih
    unfold pyRstrip
    cases hr : pyRstrip rest with
    | nil =>
      cases hw : isWs c
      · exact ⟨rest, by simp [hw]⟩
      · exact ⟨c :: rest, by simp [hw]⟩
    | cons x xs =>
      refine ⟨t, ?_⟩
      rw [hr] at ht
      simp [ht]

/-- Helper: `pyRstrip` output is a sublist of the input. -/
theorem pyRstrip_sublist (l : PyStr) : List.Sublist (pyRstrip l) l := by
  obtain ⟨t, ht⟩ := pyRstrip_is_prefix_part l
  have hs := List.sublist_append_left (pyRstrip l) t
  rw [ht] at hs
  exact hs

/-- Helper: `pyStrip` output is a sublist of the input. -/
theorem pyStrip_sublist (l : PyStr) : List.Sublist (pyStrip l) l :=
  (pyRstrip_sublist _).trans (List.dropWhile_sublist _)

/-- Helper: every scanner maps the empty string to itself. -/
theorem subJihaF_nil (f : Nat) : subJihaF f [] = [] := by cases f <;> rfl

/-- Helper: the basement-mark pass is the identity on digit-free
strings. -/
theorem subJihaF_id_of_noDig :
    ∀ (fuel : Nat) (l : PyStr), (∀ c ∈ l, isDig c = false) → subJihaF fuel l = l := by
  intro fuel
  induction fuel with
  | zero => intro l _; rfl
  | succ f ih =>
    intro l hnd
    cases l with
    | nil => rfl
    | cons c rest =>
      have hrest : ∀ x ∈ rest, isDig x = false :=
        fun x hx => hnd x (List.mem_cons_of_mem _ hx)
      by_cases hc : c = '지'
      · subst hc
        cases rest with
        | nil => simp [subJihaF, subJihaF_nil]
        | cons c2 r0 =>
          by_cases hc2 : c2 = '하'
          · subst hc2
            cases hr1 : r0.dropWhile isWs with
            | nil => simp [subJihaF, hr1, ih _ hrest]
            | cons d r1t =>
              have hd : isDig d = false := by
                have hmem : d ∈ r0.dropWhile isWs := by
                  rw [hr1]
                  exact List.mem_cons_self _ _
                have hmem2 : d ∈ r0 := (List.dropWhile_sublist isWs).subset hmem
                exact hrest d (List.mem_cons_of_mem _ hmem2)
              simp [subJihaF, hr1, hd, ih _ hrest]
          · simp [subJihaF, hc2, ih _ hrest]
      · simp [subJihaF, hc, ih _ hrest]

/-- Helper: the floor-mark pass is the identity on digit-free strings. -/
theorem subFloorF_id_of_noDig :
    ∀ (fuel : Nat) (l : PyStr), (∀ c ∈ l, isDig c = false) → subFloorF fuel l = l := by
  intro fuel
  induction fuel with
  | zero => intro l _; rfl
  | succ f ih =>
    intro l hnd
    cases l with
    | nil => rfl
    | cons c rest =>
      have hc : isDig c = false := hnd c (List.mem_cons_self _ _)
      simp [subFloorF, hc, ih rest (fun x hx => hnd x (List.mem_cons_of_mem _ hx))]

/-- Helper: the unit-number pass is the identity on digit-free
strings. -/
theorem subHoF_id_of_noDig :
    ∀ (fuel : Nat) (l : PyStr), (∀ c ∈ l, isDig c = false) → subHoF fuel l = l := by
  intro fuel
  induction fuel with
  | zero => intro l _; rfl
  | succ f ih =>
    intro l hnd
    cases l with
    | nil => rfl
    | cons c rest =>
      have hc : isDig c = false := hnd c (List.mem_cons_self _ _)
      simp [subHoF, hc, ih rest (fun x hx => hnd x (List.mem_cons_of_mem _ hx))]

/-- Helper: a failed close-paren search means no close paren at all. -/
theorem afterClose_none_contains :
    ∀ l : PyStr, afterClose l = none → l.contains ')' = false := by
  intro l
  induction l with
  | nil => intro _; rfl
  | cons c rest ih =>
    intro h
    unfold afterClose at h
    by_cases hc : c = ')'
    · rw [if_pos hc] at h
      cases h
    · rw [if_neg hc] at h
      have hr := ih h
      have hcb : (')' == c) = false :=
        beq_eq_false_iff_ne.mpr (fun he => hc he.symm)
      have hstep : (c :: rest).contains ')' = rest.contains ')' := by
        show List.elem ')' (c :: rest) = List.elem ')' rest
        conv_lhs => rw [List.elem]
        rw [hcb]
      rw [hstep]
      exact hr

/-- Helper: a successful close-paren search yields a sublist. -/
theorem afterClose_some_sublist :
    ∀ l r : PyStr, afterClose l = some r → List.Sublist r l := by
  intro l
  induction l with
  | nil => intro r h; cases h
  | cons c rest ih =>
    intro r h
    unfold afterClose at h
    by_cases hc : c = ')'
    · rw [if_pos hc] at h
      cases h
      exact (List.sublist_cons_self _ _)
    · rw [if_neg hc] at h
      exact (ih r h).cons c

/-- Helper: a successful close-paren search strictly shrinks the
string. -/
theorem afterClose_some_length :
    ∀ l r : PyStr, afterClose l = some r → r.length < l.length := by
  intro l
  induction l with
  | nil => intro r h; cases h
  | cons c rest ih =>
    intro r h
    unfold afterClose at h
    by_cases hc : c = ')'
    · rw [if_pos hc] at h
      cases h
      simp
    · rw [if_neg hc] at h
      have := ih r h
      simp only [List.length_cons]
      omega

/-- Helper: the bracketed-segment pass returns a sublist. -/
theorem subParenF_sublist :
    ∀ (fuel : Nat) (l : PyStr), List.Sublist (subParenF fuel l) l := by
  intro fuel
  induction fuel with
  | zero => intro l; exact List.Sublist.refl l
  | succ f ih =>
    intro l
    cases l with
    | nil => exact List.Sublist.refl []
    | cons c rest =>
      by_cases hc : c = '('
      · cases har : afterClose rest with
        | none =>
          have hstep : subParenF (f + 1) (c :: rest) = c :: subParenF f rest := by
            simp [subParenF, hc, har]
          rw [hstep]
          exact (ih rest).cons₂ c
        | some r =>
          have hstep : subParenF (f + 1) (c :: rest) = subParenF f r := by
            simp [subParenF, hc, har]
          rw [hstep]
          exact ((ih r).trans (afterClose_some_sublist rest r har)).cons c
      · have hstep : subParenF (f + 1) (c :: rest) = c :: subParenF f rest := by
          simp [subParenF, hc]
        rw [hstep]
        exact (ih rest).cons₂ c

/-- Helper: paren-matchability is monotone along sublists. -/
theorem pm_of_sublist :
    ∀ {s l : PyStr}, List.Sublist s l → parenMatchable s = true → parenMatchable l = true := by
  intro s l hsub
  induction hsub with
  | slnil => intro h; cases h
  | cons a hs ih =>
    intro h
    have := ih h
    unfold parenMatchable
    rw [this]
    simp
  | cons₂ a hs ih =>
    intro h
    unfold parenMatchable at h ⊢
    rcases Bool.or_eq_true_iff.mp h with h1 | h1
    · rcases Bool.and_eq_true_iff.mp h1 with ⟨ha, hcont⟩
      have hmem : ')' ∈ _ := (List.elem_iff (α := Char)).mp hcont
      have hmem2 : ')' ∈ _ := hs.subset hmem
      rw [Bool.or_eq_true_iff]
      left
      rw [Bool.and_eq_true_iff]
      exact ⟨ha, (List.elem_iff (α := Char)).mpr hmem2⟩
    · rw [Bool.or_eq_true_iff]
      right
      exact ih h1

/-- Helper: unfolding equation for paren-matchability on a cons. -/
theorem pm_cons (a : Char) (t : PyStr) :
    parenMatchable (a :: t) =
      ((decide (a = '(') && t.contains ')') || parenMatchable t) := rfl

/-- Helper: absence from a list makes `contains` false. -/
theorem contains_false_of_not_mem {l : PyStr} {a : Char} (h : a ∉ l) :
    l.contains a = false := by
  cases hc : l.contains a with
  | false => rfl
  | true => exact absurd (List.elem_iff.mp hc) h

/-- Helper: a successful close-paren search means a close paren is
present. -/
theorem afterClose_some_contains :
    ∀ l r : PyStr, afterClose l = some r → l.contains ')' = true := by
  intro l
  induction l with
  | nil => intro r h; cases h
  | cons c rest ih =>
    intro r h
    unfold afterClose at h
    by_cases hc : c = ')'
    · subst hc
      exact List.elem_iff.mpr (List.mem_cons_self _ _)
    · rw [if_neg hc] at h
      exact List.elem_iff.mpr (List.mem_cons_of_mem _ (List.elem_iff.mp (ih r h)))

/-- Helper: the output of the bracketed-segment pass has no match left
(with fuel covering the input). -/
theorem subParenF_pm :
    ∀ (fuel : Nat) (l : PyStr), l.length ≤ fuel →
      parenMatchable (subParenF fuel l) = false := by
  intro fuel
  induction fuel with
  | zero =>
    intro l hl
    have hnil : l = [] := List.length_eq_zero.mp (Nat.le_zero.mp hl)
    subst hnil
    rfl
  | succ f ih =>
    intro l hl
    cases l with
    | nil => rfl
    | cons c rest =>
      have hlr : rest.length ≤ f := by
        simp only [List.length_cons] at hl
        omega
      by_cases hc : c = '('
      · cases har : afterClose rest with
        | some r =>
          have hstep : subParenF (f + 1) (c :: rest) = subParenF f r := by
            simp [subParenF, hc, har]
          rw [hstep]
          exact ih r (Nat.le_of_lt (Nat.lt_of_lt_of_le
            (afterClose_some_length rest r har) hlr))
        | none =>
          have hstep : subParenF (f + 1) (c :: rest) = c :: subParenF f rest := by
            simp [subParenF, hc, har]
          rw [hstep, pm_cons]
          have hout := ih rest hlr
          have hcont : (subParenF f rest).contains ')' = false := by
            refine contains_false_of_not_mem ?_
            intro hmem
            have hmem2 := (subParenF_sublist f rest).subset hmem
            have hno := afterClose_none_contains rest har
            have htr : rest.contains ')' = true := List.elem_iff.mpr hmem2
            rw [hno] at htr
            cases htr
          rw [hcont, hout]
          simp
      · have hstep : subParenF (f + 1) (c :: rest) = c :: subParenF f rest := by
          simp [subParenF, hc]
        rw [hstep, pm_cons, ih rest hlr]
        simp [hc]

/-- Helper: the bracketed-segment pass is the identity when no match is
present. -/
theorem subParenF_id_of_pm_false :
    ∀ (fuel : Nat) (l : PyStr), parenMatchable l = false → subParenF fuel l = l := by
  intro fuel
  induction fuel with
  | zero => intro l _; rfl
  | succ f ih =>
    intro l h
    cases l with
    | nil => rfl
    | cons c rest =>
      rw [pm_cons] at h
      obtain ⟨ha, hb⟩ := Bool.or_eq_false_iff.mp h
      by_cases hc : c = '('
      · cases har : afterClose rest with
        | some r =>
          have hcr := afterClose_some_contains rest r har
          rw [hcr] at ha
          rw [decide_eq_true hc] at ha
          cases ha
        | none =>
          have hstep : subParenF (f + 1) (c :: rest) = c :: subParenF f rest := by
            simp [subParenF, hc, har]
          rw [hstep, ih rest hb]
      · have hstep : subParenF (f + 1) (c :: rest) = c :: subParenF f rest := by
          simp [subParenF, hc]
        rw [hstep, ih rest hb]

/-- Helper: every character of the collapsed string is a space or comes
from the input. -/
theorem mem_collapseWs :
    ∀ (l : PyStr) (x : Char), x ∈ collapseWs l → x = ' ' ∨ x ∈ l := by
  intro l
  induction l with
  | nil => intro x hx; cases hx
  | cons c1 rest ih =>
    intro x hx
    cases rest with
    | nil =>
      by_cases hw : isWs c1 = true
      · rw [show collapseWs [c1] = [' '] by simp [collapseWs, hw]] at hx
        rw [List.mem_singleton] at hx
        exact Or.inl hx
      · rw [show collapseWs [c1] = [c1] by simp [collapseWs, hw]] at hx
        rw [List.mem_singleton] at hx
        exact Or.inr (hx ▸ List.mem_cons_self _ _)
    | cons c2 r2 =>
      by_cases hw : (isWs c1 && isWs c2) = true
      · rw [show collapseWs (c1 :: c2 :: r2) = collapseWs (c2 :: r2) by
          simp [collapseWs, hw]] at hx
        rcases ih x hx with h | h
        · exact Or.inl h
        · exact Or.inr (List.mem_cons_of_mem _ h)
      · rw [show collapseWs (c1 :: c2 :: r2) =
            (if isWs c1 then ' ' else c1) :: collapseWs (c2 :: r2) by
          simp [collapseWs, hw]] at hx
        rcases List.mem_cons.mp hx with h | h
        · by_cases hw1 : isWs c1 = true
          · rw [if_pos hw1] at h
            exact Or.inl h
          · rw [if_neg hw1] at h
            exact Or.inr (h ▸ List.mem_cons_self _ _)
        · rcases ih x h with h2 | h2
          · exact Or.inl h2
          · exact Or.inr (List.mem_cons_of_mem _ h2)

/-- Helper: collapsing whitespace cannot create a bracket match. -/
theorem pm_collapse :
    ∀ l : PyStr, parenMatchable l = false → parenMatchable (collapseWs l) = false := by
  intro l
  induction l with
  | nil => intro _; rfl
  | cons c1 rest ih =>
    intro h
    rw [pm_cons] at h
    obtain ⟨ha, hb⟩ := Bool.or_eq_false_iff.mp h
    cases rest with
    | nil =>
      by_cases hw : isWs c1 = true
      · rw [show collapseWs [c1] = [' '] by simp [collapseWs, hw]]
        rfl
      · rw [show collapseWs [c1] = [c1] by simp [collapseWs, hw]]
        rw [pm_cons]
        have : (([] : PyStr).contains ')') = false := rfl
        rw [this]
        simp [parenMatchable]
    | cons c2 r2 =>
      by_cases hw : (isWs c1 && isWs c2) = true
      · rw [show collapseWs (c1 :: c2 :: r2) = collapseWs (c2 :: r2) by
          simp [collapseWs, hw]]
        exact ih hb
      · rw [show collapseWs (c1 :: c2 :: r2) =
            (if isWs c1 then ' ' else c1) :: collapseWs (c2 :: r2) by
          simp [collapseWs, hw]]
        rw [pm_cons, ih hb]
        by_cases hw1 : isWs c1 = true
        · rw [if_pos hw1]
          simp
        · rw [if_neg hw1]
          by_cases hc1 : c1 = '('
          · have hcont : (c2 :: r2).contains ')' = false := by
              rw [decide_eq_true hc1] at ha
              simpa using ha
            have hcout : (collapseWs (c2 :: r2)).contains ')' = false := by
              refine contains_false_of_not_mem ?_
              intro hmem
              rcases mem_collapseWs (c2 :: r2) ')' hmem with h2 | h2
              · cases h2
              · have htr : (c2 :: r2).contains ')' = true := List.elem_iff.mpr h2
                rw [hcont] at htr
                cases htr
            rw [hcout]
            simp
          · rw [decide_eq_false hc1]
            simp

/-- Helper: the head of a collapsed nonempty string. -/
theorem head_collapseWs :
    ∀ (r : PyStr) (c : Char),
      ∃ t, collapseWs (c :: r) = (if isWs c then ' ' else c) :: t := by
  intro r
  induction r with
  | nil =>
    intro c
    by_cases hw : isWs c = true
    · exact ⟨[], by simp [collapseWs, hw]⟩
    · exact ⟨[], by simp [collapseWs, hw]⟩
  | cons c2 r2 ih =>
    intro c
    by_cases hw : (isWs c && isWs c2) = true
    · obtain ⟨t, ht⟩ := ih c2
      refine ⟨t, ?_⟩
      rw [show collapseWs (c :: c2 :: r2) = collapseWs (c2 :: r2) by
        simp [collapseWs, hw]]
      rw [ht]
      have hw1 : isWs c = true := (Bool.and_eq_true_iff.mp hw).1
      have hw2 : isWs c2 = true := (Bool.and_eq_true_iff.mp hw).2
      rw [if_pos hw1, if_pos hw2]
    · exact ⟨collapseWs (c2 :: r2), by simp [collapseWs, hw]⟩

/-- Helper: unfolding equation for whitespace normality on a cons. -/
theorem wsNormal_cons (c : Char) (r : PyStr) :
    wsNormal (c :: r) = (((!isWs c) || c == ' ') &&
      (match r with | [] => true | c2 :: _ => !(isWs c && isWs c2)) && wsNormal r) := rfl

/-- Helper: collapsed strings are whitespace normal. -/
theorem collapseWs_wsNormal : ∀ l : PyStr, wsNormal (collapseWs l) = true := by
  intro l
  induction l with
  | nil => rfl
  | cons c1 rest ih =>
    cases rest with
    | nil =>
      by_cases hw : isWs c1 = true
      · rw [show collapseWs [c1] = [' '] by simp [collapseWs, hw]]
        rfl
      · rw [show collapseWs [c1] = [c1] by simp [collapseWs, hw]]
        rw [wsNormal_cons]
        simp [hw, wsNormal]
    | cons c2 r2 =>
      by_cases hw : (isWs c1 && isWs c2) = true
      · rw [show collapseWs (c1 :: c2 :: r2) = collapseWs (c2 :: r2) by
          simp [collapseWs, hw]]
        exact ih
      · rw [show collapseWs (c1 :: c2 :: r2) =
            (if isWs c1 then ' ' else c1) :: collapseWs (c2 :: r2) by
          simp [collapseWs, hw]]
        rw [wsNormal_cons]
        have hchar : ((!isWs (if isWs c1 then ' ' else c1)) ||
            (if isWs c1 then ' ' else c1) == ' ') = true := by
          by_cases hw1 : isWs c1 = true
          · rw [if_pos hw1]
            simp
          · rw [if_neg hw1]
            simp [hw1]
        have hadj : (match collapseWs (c2 :: r2) with
            | [] => true
            | c3 :: _ => !(isWs (if isWs c1 then ' ' else c1) && isWs c3)) = true := by
          obtain ⟨t, ht⟩ := head_collapseWs r2 c2
          rw [ht]
          by_cases hw1 : isWs c1 = true
          · have hw2 : isWs c2 = false := by
              cases hv : isWs c2
              · rfl
              · exact absurd (by rw [hw1, hv]; rfl) hw
            rw [if_pos hw1, if_neg (by rw [hw2]; exact Bool.false_ne_true)]
            simp [hw2]
          · rw [if_neg hw1]
            simp [hw1]
        rw [hchar, hadj, ih]
        rfl

/-- Helper: whitespace normality restricts to a left part. -/
theorem wsNormal_append_left :
    ∀ p t : PyStr, wsNormal (p ++ t) = true → wsNormal p = true := by
  intro p
  induction p with
  | nil => intro t _; rfl
  | cons c p2 ih =>
    intro t h
    rw [List.cons_append, wsNormal_cons] at h
    obtain ⟨h12, h3⟩ := Bool.and_eq_true_iff.mp h
    obtain ⟨h1, h2⟩ := Bool.and_eq_true_iff.mp h12
    rw [wsNormal_cons]
    refine Bool.and_eq_true_iff.mpr ⟨Bool.and_eq_true_iff.mpr ⟨h1, ?_⟩, ih t h3⟩
    cases p2 with
    | nil => rfl
    | cons c2 r2 =>
      rw [List.cons_append] at h2
      exact h2

/-- Helper: whitespace normality passes to the tail. -/
theorem wsNormal_tail {c : Char} {r : PyStr} (h : wsNormal (c :: r) = true) :
    wsNormal r = true := by
  rw [wsNormal_cons] at h
  exact (Bool.and_eq_true_iff.mp h).2

/-- Helper: whitespace normality survives dropping a leading run. -/
theorem wsNormal_dropWhile :
    ∀ l : PyStr, wsNormal l = true → wsNormal (l.dropWhile isWs) = true := by
  intro l
  induction l with
  | nil => intro _; rfl
  | cons c rest ih =>
    intro h
    rw [List.dropWhile_cons]
    by_cases hw : isWs c = true
    · rw [if_pos hw]
      exact ih (wsNormal_tail h)
    · rw [if_neg hw]
      exact h

/-- Helper: whitespace normality survives the right strip. -/
theorem wsNormal_pyRstrip (l : PyStr) (h : wsNormal l = true) :
    wsNormal (pyRstrip l) = true := by
  obtain ⟨t, ht⟩ := pyRstrip_is_prefix_part l
  exact wsNormal_append_left (pyRstrip l) t (by rw [ht]; exact h)

/-- Helper: whitespace normality survives a full strip. -/
theorem wsNormal_pyStrip (l : PyStr) (h : wsNormal l = true) :
    wsNormal (pyStrip l) = true :=
  wsNormal_pyRstrip _ (wsNormal_dropWhile l h)

/-- Helper: collapsing is the identity on whitespace-normal strings. -/
theorem wsNormal_collapse_id : ∀ l : PyStr, wsNormal l = true → collapseWs l = l := by
  intro l
  induction l with
  | nil => intro _; rfl
  | cons c1 rest ih =>
    intro h
    rw [wsNormal_cons] at h
    obtain ⟨h12, h3⟩ := Bool.and_eq_true_iff.mp h
    obtain ⟨h1, h2⟩ := Bool.and_eq_true_iff.mp h12
    cases rest with
    | nil =>
      by_cases hw : isWs c1 = true
      · have hsp : c1 = ' ' := by
          rw [hw] at h1
          simpa using h1
        rw [show collapseWs [c1] = [' '] by simp [collapseWs, hw], hsp]
      · rw [show collapseWs [c1] = [c1] by simp [collapseWs, hw]]
    | cons c2 r2 =>
      have h2b : (!(isWs c1 && isWs c2)) = true := h2
      have hnotboth : (isWs c1 && isWs c2) = false := by
        cases hv : (isWs c1 && isWs c2)
        · rfl
        · rw [hv] at h2b
          cases h2b
      rw [show collapseWs (c1 :: c2 :: r2) =
          (if isWs c1 then ' ' else c1) :: collapseWs (c2 :: r2) by
        simp [collapseWs, hnotboth]]
      rw [ih h3]
      by_cases hw : isWs c1 = true
      · have hsp : c1 = ' ' := by
          rw [hw] at h1
          simpa using h1
        rw [if_pos hw, hsp]
      · rw [if_neg hw]

/-- Helper: the right strip is idempotent. -/
theorem pyRstrip_idem : ∀ l : PyStr, pyRstrip (pyRstrip l) = pyRstrip l := by
  intro l
  induction l with
  | nil => rfl
  | cons c rest ih =>
    cases hr : pyRstrip rest with
    | nil =>
      by_cases hw : isWs c = true
      · rw [show pyRstrip (c :: rest) = [] by unfold pyRstrip; rw [hr]; simp [hw]]
        rfl
      · rw [show pyRstrip (c :: rest) = [c] by unfold pyRstrip; rw [hr]; simp [hw]]
        unfold pyRstrip
        simp [hw, pyRstrip]
    | cons x xs =>
      have hstep : pyRstrip (c :: rest) = c :: x :: xs := by
        unfold pyRstrip
        rw [hr]
      have h2 : pyRstrip (x :: xs) = x :: xs := by
        rw [← hr, ih]
      rw [hstep]
      have hstep2 : pyRstrip (c :: x :: xs) =
          (match pyRstrip (x :: xs) with
           | [] => if isWs c then [] else [c]
           | r => c :: r) := rfl
      rw [hstep2, h2]

/-- Helper: the head of a dropWhile result refutes the predicate. -/
theorem dropWhile_head_false (p : Char → Bool) :
    ∀ (l : PyStr) (y : Char) (ys : PyStr), l.dropWhile p = y :: ys → p y = false := by
  intro l
  induction l with
  | nil => intro y ys h; cases h
  | cons c rest ih =>
    intro y ys h
    rw [List.dropWhile_cons] at h
    by_cases hp : p c = true
    · rw [if_pos hp] at h
      exact ih y ys h
    · rw [if_neg hp] at h
      injection h with h1 h2
      subst h1
      cases hv : p c
      · rfl
      · exact absurd hv hp

/-- Helper: the full strip is idempotent. -/
theorem pyStrip_idem : ∀ l : PyStr, pyStrip (pyStrip l) = pyStrip l := by
  intro l
  unfold pyStrip
  cases he : pyRstrip (l.dropWhile isWs) with
  | nil => rfl
  | cons x xs =>
    have hpre := pyRstrip_is_prefix_part (l.dropWhile isWs)
    obtain ⟨t, ht⟩ := hpre
    rw [he] at ht
    have hx : isWs x = false := by
      refine dropWhile_head_false isWs l x (xs ++ t) ?_
      rw [← ht]
      rfl
    have hdw : (x :: xs).dropWhile isWs = x :: xs := by
      rw [List.dropWhile_cons, if_neg (by rw [hx]; exact Bool.false_ne_true)]
    rw [hdw, ← he, pyRstrip_idem]

/-- Helper: digit-freeness carries through collapsing. -/
theorem noDig_collapse (l : PyStr) (h : ∀ c ∈ l, isDig c = false) :
    ∀ c ∈ collapseWs l, isDig c = false := by
  intro c hc
  rcases mem_collapseWs l c hc with h1 | h1
  · rw [h1]
    rfl
  · exact h c h1

/-- Claim C8 as amended: address cleaning is idempotent on every
address containing no decimal digit.  (The general claim is refuted by
`clean_address_not_idempotent`: removing a unit number can glue a digit
onto a floor mark that only the next pass removes.) -/
theorem clean_address_idempotent_on_digit_free :
    ∀ s : PyStr, (∀ c ∈ s, isDig c = false) →
      cleanAddressForSearch (cleanAddressForSearch s) = cleanAddressForSearch s := by
  have hgen : ∀ T : PyStr, (∀ c ∈ T, isDig c = false) →
      ¬(T = [] ∨ pyStrip T = []) →
      cleanAddressForSearch T = pyStrip (collapseWs (cleanStage1 (pyStrip T))) := by
    intro T hT h0T
    have hnd1T : ∀ c ∈ cleanStage1 (pyStrip T), isDig c = false :=
      fun c hc => hT c ((pyStrip_sublist T).subset ((subParenF_sublist _ _).subset hc))
    unfold cleanAddressForSearch
    rw [if_neg h0T]
    rw [show cleanStage2 (cleanStage1 (pyStrip T)) = cleanStage1 (pyStrip T) from
      subJihaF_id_of_noDig _ _ hnd1T]
    rw [show cleanStage3 (cleanStage1 (pyStrip T)) = cleanStage1 (pyStrip T) from
      subFloorF_id_of_noDig _ _ hnd1T]
    rw [show cleanStage4 (cleanStage1 (pyStrip T)) = cleanStage1 (pyStrip T) from
      subHoF_id_of_noDig _ _ hnd1T]
  have hguard : ∀ T : PyStr, (T = [] ∨ pyStrip T = []) →
      cleanAddressForSearch T = T := by
    intro T hT
    unfold cleanAddressForSearch
    rw [if_pos hT]
  intro s hnd
  by_cases h0 : s = [] ∨ pyStrip s = []
  · rw [hguard s h0, hguard s h0]
  · have hnd0 : ∀ c ∈ pyStrip s, isDig c = false :=
      fun c hc => hnd c ((pyStrip_sublist s).subset hc)
    have hnd1 : ∀ c ∈ cleanStage1 (pyStrip s), isDig c = false :=
      fun c hc => hnd0 c ((subParenF_sublist _ _).subset hc)
    have hexp : cleanAddressForSearch s =
        pyStrip (collapseWs (cleanStage1 (pyStrip s))) := hgen s hnd h0
    have hndC : ∀ c ∈ collapseWs (cleanStage1 (pyStrip s)), isDig c = false :=
      noDig_collapse _ hnd1
    have hndT : ∀ c ∈ cleanAddressForSearch s, isDig c = false := by
      rw [hexp]
      exact fun c hc => hndC c ((pyStrip_sublist _).subset hc)
    have hpm1 : parenMatchable (cleanStage1 (pyStrip s)) = false :=
      subParenF_pm _ _ (le_refl _)
    have hpmC : parenMatchable (collapseWs (cleanStage1 (pyStrip s))) = false :=
      pm_collapse _ hpm1
    have hpmT : parenMatchable (cleanAddressForSearch s) = false := by
      rw [hexp]
      cases hv : parenMatchable (pyStrip (collapseWs (cleanStage1 (pyStrip s))))
      · rfl
      · have := pm_of_sublist (pyStrip_sublist _) hv
        rw [hpmC] at this
        cases this
    have hstT : pyStrip (cleanAddressForSearch s) = cleanAddressForSearch s := by
      rw [hexp]
      exact pyStrip_idem _
    have hwsT : wsNormal (cleanAddressForSearch s) = true := by
      rw [hexp]
      exact wsNormal_pyStrip _ (collapseWs_wsNormal _)
    by_cases h0t : cleanAddressForSearch s = [] ∨ pyStrip (cleanAddressForSearch s) = []
    · exact hguard _ h0t
    · have hexp2 : cleanAddressForSearch (cleanAddressForSearch s) =
          pyStrip (collapseWs (cleanStage1 (pyStrip (cleanAddressForSearch s)))) :=
        hgen _ hndT h0t
      rw [hexp2, hstT]
      rw [show cleanStage1 (cleanAddressForSearch s) = cleanAddressForSearch s from
        subParenF_id_of_pm_false _ _ hpmT]
      rw [wsNormal_collapse_id _ hwsT, hstT]

/-- Witness for the amended claim C8 theorem on a concrete digit-free
address. -/
theorem clean_address_idempotent_on_digit_free_witness :
    cleanAddressForSearch (cleanAddressForSearch "서울 (본관) 지하".data) =
      cleanAddressForSearch "서울 (본관) 지하".data :=
  clean_address_idempotent_on_digit_free "서울 (본관) 지하".data (by decide)
